import Mathlib

/-!
# MuseScore: the XML reader facade and the trill line

A shallow embedding of two translation units of the score editor,

* `src/framework/global/xmlreader.cpp`, the facade `XmlReader` over the
  streaming parser `QXmlStreamReader`;
* `src/engraving/dom/trill.cpp`, the spanner `Trill` and its `TrillSegment`,

followed by the properties proved about them.

Conventions of the embedding.

* A C++ enumeration whose enumerators are all that matter is an inductive
  type; one that is cast from and to integers is kept as its integer value.
* Objects are records; a member function takes the record and returns the
  new record, together with its result when it has one.
* Calls that leave the translation unit (the base class `SLine`, the font,
  the parser library) are fields of a record of collaborators which every
  function takes as its first argument, so every result holds for whatever
  those collaborators do.
* Calls whose only purpose is their effect on another object
  (`triggerLayout`, `removed`) are returned as a list of `Call`s in program
  order; the list holds the calls the function makes itself.
* A `double` is an IEEE 754 binary64 value: a finite double is the rational it
  stands for, and an arithmetic operation is the exact operation followed by
  the rounding to the nearest double, ties to even, with no wider
  intermediate precision. `int` is 32 bits and `long` 64 bits wide.
* A function that can run into undefined behaviour (a null dereference, a
  read past the end of an array) returns an `Option`, `none` for that case.
-/

namespace mu.framework

/-! ## The parser library, as far as the facade uses it -/

namespace QXmlStreamReader

/-- The token kind of the parser library, kept as the integer value of the
enumeration so that values outside the enumeration can be spoken about. -/
abbrev TokenType := Int

namespace TokenType

def NoToken : TokenType := 0
def Invalid : TokenType := 1
def StartDocument : TokenType := 2
def EndDocument : TokenType := 3
def StartElement : TokenType := 4
def EndElement : TokenType := 5
def Characters : TokenType := 6
def Comment : TokenType := 7
def DTD : TokenType := 8
def EntityReference : TokenType := 9
def ProcessingInstruction : TokenType := 10

end TokenType

end QXmlStreamReader

/-- One attribute of an element as the parser library hands it out: its
qualified name and its value. -/
structure QXmlStreamAttribute where
  qualifiedName : String
  value : String
  deriving DecidableEq, Repr

/-- The attribute vector of the current element, in document order. -/
abbrev QXmlStreamAttributes := List QXmlStreamAttribute

namespace QXmlStreamAttributes

/-- Library lookup `QXmlStreamAttributes::value(name)`: the value of the first
attribute with that qualified name, an empty string reference when there is
none. -/
def value : QXmlStreamAttributes → String → String
  | [], _ => ""
  | a :: rest, name => if a.qualifiedName = name then a.value else value rest name

/-- Library test `QXmlStreamAttributes::hasAttribute(name)`: whether some
attribute carries that qualified name. -/
def hasAttribute : QXmlStreamAttributes → String → Bool
  | [], _ => false
  | a :: rest, name => if a.qualifiedName = name then true else hasAttribute rest name

end QXmlStreamAttributes

/-- A `std::string_view`: `storage` holds the characters that lie in memory
from the view's first character to the end of the array they are stored in,
`none` when the view's pointer is null, and `size` is the length of the view.
The text is taken to be valid UTF-8, so that a character stands for its
bytes. -/
structure StringView where
  storage : Option (List Char)
  size : Nat
  deriving DecidableEq, Repr

namespace StringView

/-- The NUL character, which ends a C string. -/
def nul : Char := Char.ofNat 0

/-- The text of the view: its first `size` characters. -/
def text (v : StringView) : String :=
  match v.storage with
  | none => ""
  | some mem => String.mk (mem.take v.size)

/-- The C string at `name.data()`, as the conversion from `const char*` to
the library's string type reads it: the characters up to the first NUL, with
no regard to the length of the view, and the empty string for a null pointer.
The result is `none` when the array holds no NUL, so that the read runs off
its end. -/
def data (v : StringView) : Option String :=
  match v.storage with
  | none => some ""
  | some mem =>
    if nul ∈ mem then
      some (String.mk (mem.takeWhile (fun c => c ≠ nul)))
    else
      none

/-- The view of a string literal: the characters of the literal, a NUL after
them, and the length of the literal. -/
def ofLiteral (s : String) : StringView :=
  { storage := some (s.data ++ [nul]), size := s.length }

end StringView

/-- What `xmlreader.cpp` calls on the parser library. `R` is the state of a
`QXmlStreamReader`, `D` the type `double`, which the facade only passes
through. -/
structure QtParser (R D : Type) where
  /-- Advances the parser and returns the kind of the token read. -/
  readNext : R → QXmlStreamReader.TokenType × R
  /-- Kind of the current token. -/
  tokenType : R → QXmlStreamReader.TokenType
  /-- Attributes of the current element. -/
  attributes : R → QXmlStreamAttributes
  /-- Conversion `QStringRef::toInt()`. -/
  toInt : String → Int
  /-- Conversion `QStringRef::toDouble()`. -/
  toDouble : String → D

/-! ## `xmlreader.cpp` -/

namespace XmlReader

/-- The enumeration `XmlReader::TokenType` of `xmlreader.h`. -/
inductive TokenType
  | Unknown
  | StartDocument
  | EndDocument
  | StartElement
  | EndElement
  | Characters
  | Comment
  deriving DecidableEq, Repr

end XmlReader

section
open QXmlStreamReader.TokenType

/-- The static function `convertTokenType`: a switch over the library's token
kind, with a final `return Unknown` for a value no case label matches. -/
def convertTokenType (type : QXmlStreamReader.TokenType) : XmlReader.TokenType :=
  if type = NoToken ∨ type = Invalid ∨ type = DTD ∨ type = EntityReference
      ∨ type = ProcessingInstruction then
    XmlReader.TokenType.Unknown
  else if type = StartDocument then XmlReader.TokenType.StartDocument
  else if type = EndDocument then XmlReader.TokenType.EndDocument
  else if type = StartElement then XmlReader.TokenType.StartElement
  else if type = EndElement then XmlReader.TokenType.EndElement
  else if type = Comment then XmlReader.TokenType.Comment
  else if type = Characters then XmlReader.TokenType.Characters
  else XmlReader.TokenType.Unknown

end

/-- The facade object: it owns one parser (`m_reader`). -/
structure XmlReader (R : Type) where
  m_reader : R

namespace XmlReader

variable {R D : Type}

/-- Member `XmlReader::readNext`. -/
def readNext (q : QtParser R D) (x : XmlReader R) : TokenType × XmlReader R :=
  let r := q.readNext x.m_reader
  (convertTokenType r.1, { m_reader := r.2 })

/-- Member `XmlReader::tokenType`. -/
def tokenType (q : QtParser R D) (x : XmlReader R) : TokenType :=
  convertTokenType (q.tokenType x.m_reader)

/-- Member `XmlReader::attributeValue`: the lookup is made under
`name.data()`. The result is `none` when reading the C string runs off the
array. -/
def attributeValue (q : QtParser R D) (x : XmlReader R) (name : StringView) :
    Option String :=
  match name.data with
  | none => none
  | some cname => some ((q.attributes x.m_reader).value cname)

/-- Member `XmlReader::hasAttribute`: the test is made under `name.data()`.
The result is `none` when reading the C string runs off the array. -/
def hasAttribute (q : QtParser R D) (x : XmlReader R) (name : StringView) :
    Option Bool :=
  match name.data with
  | none => none
  | some cname => some ((q.attributes x.m_reader).hasAttribute cname)

/-- Member `XmlReader::intAttribute`. -/
def intAttribute (q : QtParser R D) (x : XmlReader R) (name : StringView)
    (defaultValue : Int) : Option Int :=
  match hasAttribute q x name with
  | none => none
  | some true =>
    match attributeValue q x name with
    | none => none
    | some v => some (q.toInt v)
  | some false => some defaultValue

/-- Member `XmlReader::doubleAttribute`. -/
def doubleAttribute (q : QtParser R D) (x : XmlReader R) (name : StringView)
    (defaultValue : D) : Option D :=
  match hasAttribute q x name with
  | none => none
  | some true =>
    match attributeValue q x name with
    | none => none
    | some v => some (q.toDouble v)
  | some false => some defaultValue

end XmlReader

/-- The six token kinds that describe the structure of a document. -/
def structuralTokens : List QXmlStreamReader.TokenType :=
  [QXmlStreamReader.TokenType.StartDocument, QXmlStreamReader.TokenType.EndDocument,
   QXmlStreamReader.TokenType.StartElement, QXmlStreamReader.TokenType.EndElement,
   QXmlStreamReader.TokenType.Comment, QXmlStreamReader.TokenType.Characters]

/-- A parser over a fixed list of pending token kinds, used to run the facade
on concrete input: the state is the current kind, the attributes of the
current element and the kinds still to come. -/
structure ListParser where
  current : QXmlStreamReader.TokenType
  attrs : QXmlStreamAttributes
  pending : List QXmlStreamReader.TokenType

/-- Numeric conversion of the sample parser: it knows the text `"12"` and
fails, with the library's failure value `0`, on everything else. -/
def sampleToInt (s : String) : Int :=
  if s = "12" then 12 else 0

/-- The sample parser's operations. -/
def listParser : QtParser ListParser Int where
  readNext := fun r =>
    match r.pending with
    | [] => (QXmlStreamReader.TokenType.Invalid,
              { r with current := QXmlStreamReader.TokenType.Invalid })
    | t :: rest => (t, { r with current := t, pending := rest })
  tokenType := fun r => r.current
  attributes := fun r => r.attrs
  toInt := sampleToInt
  toDouble := sampleToInt

end mu.framework

namespace mu.engraving

/-! ## Types declared outside `trill.cpp` -/

/-- Property ids (`Pid` of `property.h`): the ids `trill.cpp` names, and
`other n` for each of the remaining ids. -/
inductive Pid
  | TRILL_TYPE
  | ORNAMENT_STYLE
  | PLACEMENT
  | PLAY
  | OFFSET
  | COLOR
  | MIN_DISTANCE
  | other (n : Nat)
  deriving DecidableEq, Repr

/-- Style ids (`Sid` of `styledef.h`): the ids `trill.cpp` names, and
`other n` for each of the remaining ids. -/
inductive Sid
  | trillPlacement
  | trillPosAbove
  | trillPosBelow
  | trillMinDistance
  | other (n : Nat)
  deriving DecidableEq, Repr

/-- The enumeration `TrillType`, kept as its integer value because
`trill.cpp` casts it from and to `int`. -/
structure TrillType where
  raw : Int
  deriving DecidableEq, Repr

namespace TrillType

/-- Modelled from the spec: the enumerator `TrillType::TRILL_LINE` is declared
in `types/types.h`, which is not part of the sources at hand; it is the first
enumerator, with the integer value 0. -/
def TRILL_LINE : TrillType := ⟨0⟩

/-- The cast `TrillType(n)` of `Trill::setProperty`. It keeps the integer; the
narrowing to the underlying type of the enumeration, which is the identity on
the integer of every enumerator, is not modelled. -/
def ofInt (n : Int) : TrillType := ⟨n⟩

/-- The cast `int(tt)` of `Trill::getProperty`. -/
def toInt (tt : TrillType) : Int := tt.raw

end TrillType

/-- The enumeration `OrnamentStyle`, kept as its integer value. -/
structure OrnamentStyle where
  raw : Int
  deriving DecidableEq, Repr

namespace OrnamentStyle

/-- Modelled from the spec: the enumerator `OrnamentStyle::DEFAULT` is declared
in `types/types.h`, which is not part of the sources at hand; it is the first
enumerator. -/
def DEFAULT : OrnamentStyle := ⟨0⟩

end OrnamentStyle

/-- A colour value, as a code. -/
structure Color where
  rgba : Nat
  deriving DecidableEq, Repr

/-- A glyph id of the engraving font (`SymId`). -/
structure SymId where
  code : Nat
  deriving DecidableEq, Repr

/-- The identity of a score element; a pointer `EngravingItem*` is an
`Option ItemId`, with `none` for `nullptr`. -/
structure ItemId where
  addr : Nat
  deriving DecidableEq, Repr

/-- The variant `PropertyValue` of `property.h`: the alternatives `trill.cpp`
builds or reads, and `other` for the remaining ones. -/
inductive PropertyValue
  | int (v : Int)
  | bool (v : Bool)
  | ornamentStyle (v : OrnamentStyle)
  | color (v : Color)
  | other (tag : Nat)
  deriving DecidableEq, Repr

/-- A call whose effect lies outside the object it is made from. -/
inductive Call
  /-- The base class implementation `SLine::setProperty(pid, val)` was called. -/
  | slineSetProperty (pid : Pid) (val : PropertyValue)
  /-- The notification `triggerLayout()`. -/
  | triggerLayout
  /-- The notification `e->removed()`. -/
  | removed (e : ItemId)
  deriving DecidableEq, Repr

/-- The part of a spanner segment that `Trill` touches. -/
structure SpannerSegment where
  m_track : Nat
  deriving DecidableEq, Repr

/-- The part of an `Ornament` that `Trill` touches. -/
structure Ornament where
  m_track : Nat
  m_symId : SymId
  deriving DecidableEq, Repr

namespace Ornament

/-- Modelled from the spec: `EngravingItem::setTrack`, inherited by `Ornament`
and declared outside `trill.cpp`, stores the track. -/
def setTrack (n : Nat) (o : Ornament) : Ornament := { o with m_track := n }

/-- Modelled from the spec: `Ornament::setSymId`, declared outside
`trill.cpp`, stores the symbol. -/
def setSymId (id : SymId) (o : Ornament) : Ornament := { o with m_symId := id }

end Ornament

/-- The state a `Trill` inherits from `SLine` and its bases: the track, the
colour, the spanner segments, and `rest` for everything else. -/
structure SLine (B : Type) where
  m_track : Nat
  m_color : Color
  segments : List SpannerSegment
  rest : B

/-- The collaborators of `trill.cpp`: what it calls in its base class and in
other translation units. -/
structure TrillEnv (B : Type) where
  /-- The base constructor `SLine(ElementType::TRILL, parent)`. -/
  slineInit : SLine B
  /-- The base implementation `SLine::setProperty`: its result and the
  inherited state it leaves. -/
  slineSetProperty : Pid → PropertyValue → SLine B → Bool × SLine B
  /-- The base implementation `SLine::getProperty`. -/
  slineGetProperty : Pid → SLine B → PropertyValue
  /-- The base implementation `SLine::propertyDefault`. -/
  slinePropertyDefault : Pid → SLine B → PropertyValue
  /-- The style lookup `style().styleV(sid)`. -/
  styleV : Sid → PropertyValue
  /-- The style lookup `styleValue(pid, sid)` of `initElementStyle`. -/
  styleValue : Pid → Sid → PropertyValue
  /-- The ornament `Factory::createOrnament` returns. -/
  createOrnament : Ornament
  /-- The table `Ornament::fromTrillType`. -/
  fromTrillType : TrillType → SymId
  /-- What `PropertyValue::toInt` yields on an alternative other than `int`. -/
  convInt : PropertyValue → Int
  /-- What `PropertyValue::toBool` yields on an alternative other than `bool`. -/
  convBool : PropertyValue → Bool
  /-- What `value<OrnamentStyle>()` yields on another alternative. -/
  convOrnamentStyle : PropertyValue → OrnamentStyle
  /-- What `value<Color>()` yields on another alternative. -/
  convColor : PropertyValue → Color

namespace PropertyValue

variable {B : Type}

/-- The conversion `val.toInt()`. -/
def toInt (env : TrillEnv B) : PropertyValue → Int
  | int v => v
  | pv => env.convInt pv

/-- The conversion `val.toBool()`. -/
def toBool (env : TrillEnv B) : PropertyValue → Bool
  | bool v => v
  | pv => env.convBool pv

/-- The conversion `val.value<OrnamentStyle>()`. -/
def toOrnamentStyle (env : TrillEnv B) : PropertyValue → OrnamentStyle
  | ornamentStyle v => v
  | pv => env.convOrnamentStyle pv

/-- The conversion `val.value<Color>()`. -/
def toColor (env : TrillEnv B) : PropertyValue → Color
  | color v => v
  | pv => env.convColor pv

end PropertyValue

/-! ## `Trill` -/

/-- The static table `trillStyle`. -/
def trillStyle : List (Sid × Pid) :=
  [(Sid.trillPlacement, Pid.PLACEMENT), (Sid.trillPosAbove, Pid.OFFSET)]

/-- The class `Trill`: the inherited state and the members the class adds. -/
structure Trill (B : Type) where
  base : SLine B
  m_trillType : TrillType
  m_ornament : Option Ornament
  m_accidental : Option ItemId
  m_cueNoteChord : Option ItemId
  m_ornamentStyle : OrnamentStyle
  m_playArticulation : Bool

namespace Trill

variable {B : Type}

/-- Modelled from the spec: the accessor `track()` is inherited from
`EngravingItem` and declared outside `trill.cpp`; it reads the track. -/
def track (t : Trill B) : Nat := t.base.m_track

/-- Modelled from the spec: the accessor `color()` is inherited from
`EngravingItem` and declared outside `trill.cpp`; it reads the colour. -/
def color (t : Trill B) : Color := t.base.m_color

/-- Modelled from the spec: `setColor` is inherited and declared outside
`trill.cpp`; it sets the trill's colour. -/
def setColor (c : Color) (t : Trill B) : Trill B :=
  { t with base := { t.base with m_color := c } }

/-- Modelled from the spec: the accessor `trillType()` is declared inline in
`trill.h`, which is not part of the sources at hand; it reads `m_trillType`. -/
def trillType (t : Trill B) : TrillType := t.m_trillType

/-- Modelled from the spec: the accessor `ornamentStyle()` of `trill.h` reads
`m_ornamentStyle`. -/
def ornamentStyle (t : Trill B) : OrnamentStyle := t.m_ornamentStyle

/-- Modelled from the spec: the accessor `setOrnamentStyle` of `trill.h`
stores `m_ornamentStyle`. -/
def setOrnamentStyle (val : OrnamentStyle) (t : Trill B) : Trill B :=
  { t with m_ornamentStyle := val }

/-- Modelled from the spec: the accessor `playArticulation()` of `trill.h`
reads `m_playArticulation`. -/
def playArticulation (t : Trill B) : Bool := t.m_playArticulation

/-- Modelled from the spec: the accessor `setPlayArticulation` of `trill.h`
stores `m_playArticulation`. -/
def setPlayArticulation (val : Bool) (t : Trill B) : Trill B :=
  { t with m_playArticulation := val }

/-- Modelled from the spec: the accessor `accidental()` of `trill.h` reads
`m_accidental`. -/
def accidental (t : Trill B) : Option ItemId := t.m_accidental

/-- Modelled from the spec: the accessor `setAccidental` of `trill.h` stores
`m_accidental`. -/
def setAccidental (a : Option ItemId) (t : Trill B) : Trill B :=
  { t with m_accidental := a }

/-- Member `Trill::remove`. The result is `none` when the function
dereferences a null pointer (`e` and `m_accidental` both null). -/
def remove (e : Option ItemId) (t : Trill B) : Option (Trill B × List Call) :=
  if e = t.m_accidental then
    match e with
    | none => none
    | some id => some ({ t with m_accidental := none }, [Call.removed id])
  else
    some (t, [])

/-- Member `Trill::setTrack`: the inherited `EngravingItem::setTrack` stores
the track; then every spanner segment and the ornament, when there is one,
get the same track. -/
def setTrack (n : Nat) (t : Trill B) : Trill B :=
  let t1 : Trill B := { t with base := { t.base with m_track := n } }
  let t2 : Trill B :=
    { t1 with base := { t1.base with
        segments := t1.base.segments.map (fun ss => { ss with m_track := n }) } }
  match t2.m_ornament with
  | some o => { t2 with m_ornament := some (o.setTrack n) }
  | none => t2

/-- Member `Trill::setTrillType`. -/
def setTrillType (env : TrillEnv B) (tt : TrillType) (t : Trill B) : Trill B :=
  let t1 : Trill B := { t with m_trillType := tt }
  let o : Ornament :=
    match t1.m_ornament with
    | none => env.createOrnament
    | some o => o
  let o := o.setTrack t1.track
  let o := o.setSymId (env.fromTrillType tt)
  { t1 with m_ornament := some o }

/-- Member `Trill::getProperty`. -/
def getProperty (env : TrillEnv B) (propertyId : Pid) (t : Trill B) : PropertyValue :=
  match propertyId with
  | Pid.TRILL_TYPE => PropertyValue.int t.trillType.toInt
  | Pid.ORNAMENT_STYLE => PropertyValue.ornamentStyle t.ornamentStyle
  | Pid.PLAY => PropertyValue.bool t.playArticulation
  | _ => env.slineGetProperty propertyId t.base

/-- The `default:` branch of `Trill::setProperty`, which the `COLOR` case
falls through to: the base implementation runs, and only when it accepts the
change is a layout triggered. -/
def setPropertyDefault (env : TrillEnv B) (propertyId : Pid) (val : PropertyValue)
    (t : Trill B) : Bool × Trill B × List Call :=
  let r := env.slineSetProperty propertyId val t.base
  let t1 : Trill B := { t with base := r.2 }
  if !r.1 then
    (false, t1, [Call.slineSetProperty propertyId val])
  else
    (true, t1, [Call.slineSetProperty propertyId val, Call.triggerLayout])

/-- Member `Trill::setProperty`: the result, the trill afterwards and the
calls made, in order. -/
def setProperty (env : TrillEnv B) (propertyId : Pid) (val : PropertyValue)
    (t : Trill B) : Bool × Trill B × List Call :=
  match propertyId with
  | Pid.TRILL_TYPE =>
    (true, t.setTrillType env (TrillType.ofInt (val.toInt env)), [Call.triggerLayout])
  | Pid.PLAY =>
    (true, t.setPlayArticulation (val.toBool env), [Call.triggerLayout])
  | Pid.ORNAMENT_STYLE =>
    (true, t.setOrnamentStyle (val.toOrnamentStyle env), [Call.triggerLayout])
  | Pid.COLOR =>
    setPropertyDefault env propertyId val (t.setColor (val.toColor env))
  | _ =>
    setPropertyDefault env propertyId val t

/-- Member `Trill::propertyDefault`. -/
def propertyDefault (env : TrillEnv B) (propertyId : Pid) (t : Trill B) : PropertyValue :=
  match propertyId with
  | Pid.TRILL_TYPE => PropertyValue.int 0
  | Pid.ORNAMENT_STYLE => PropertyValue.ornamentStyle OrnamentStyle.DEFAULT
  | Pid.PLAY => PropertyValue.bool true
  | Pid.PLACEMENT => env.styleV Sid.trillPlacement
  | _ => env.slinePropertyDefault propertyId t.base

/-- Modelled from the spec: `initElementStyle` belongs to `EngravingObject`
and is not part of the sources at hand; it sets every property of the style
table through the virtual `setProperty`, with the value the style holds. -/
def initElementStyle (env : TrillEnv B) :
    List (Sid × Pid) → Trill B × List Call → Trill B × List Call
  | [], acc => acc
  | (sid, pid) :: rest, (t, calls) =>
    let r := setProperty env pid (env.styleValue pid sid) t
    initElementStyle env rest (r.2.1, calls ++ r.2.2)

/-- The constructor `Trill::Trill(EngravingItem* parent)`: the trill built and
the calls made while building it. The play flag has no value of its own before
`setPlayArticulation(true)` stores one. -/
def create (env : TrillEnv B) : Trill B × List Call :=
  let t0 : Trill B :=
    { base := env.slineInit
      m_trillType := TrillType.TRILL_LINE
      m_ornament := none
      m_accidental := none
      m_cueNoteChord := none
      m_ornamentStyle := OrnamentStyle.DEFAULT
      m_playArticulation := false }
  let t1 := t0.setPlayArticulation true
  initElementStyle env trillStyle (t1, [])

end Trill

end mu.engraving

namespace mu.engraving

/-! ## Double precision arithmetic -/

/-- The rounding of the C library function `lrint` in the default rounding
mode, applied to a rational: the nearest integer, the even one of the two when
`x` lies half-way. -/
def lrint (x : ℚ) : Int :=
  let f : Int := ⌊x⌋
  let d : ℚ := x - f
  if d < 1 / 2 then f
  else if 1 / 2 < d then f + 1
  else if f % 2 = 0 then f
  else f + 1

/-- A value of the type `double` (IEEE 754 binary64): a finite number, which
is rational, or a value that is not finite (an infinity or a NaN). The two
zeros are not told apart. -/
inductive Double
  | finite (q : ℚ)
  | nonFinite
  deriving DecidableEq

namespace Double

/-- The rounding every arithmetic operation on doubles ends with, in the
default mode (to nearest, ties to even): `x` lies in the binade of exponent
`e`, not below the least normal exponent -1022; the doubles there are the
multiples of `2 ^ (e - 52)`, and `x` goes to the nearest of them, the one with
the even multiplier at a tie. A result of magnitude `2 ^ 1024` or more
overflows to an infinity. -/
def round (x : ℚ) : Double :=
  let e : Int := max (Int.log 2 |x|) (-1022)
  let ulp : ℚ := 2 ^ (e - 52)
  let y : ℚ := (lrint (x / ulp) : ℚ) * ulp
  if 2 ^ 1024 ≤ |y| then nonFinite else finite y

/-- The rational `x` is a finite double: rounding leaves it as it is. -/
def IsDouble (x : ℚ) : Prop :=
  round x = finite x

instance (x : ℚ) : Decidable (IsDouble x) :=
  inferInstanceAs (Decidable (round x = finite x))

/-- The subtraction `a - b` of doubles: the exact difference, rounded. With an
operand that is not finite the result is not finite. -/
def sub : Double → Double → Double
  | finite a, finite b => round (a - b)
  | _, _ => nonFinite

/-- The division `a / b` of a double by a finite double: the exact quotient,
rounded; a quotient by zero, or of a value that is not finite, is not
finite. -/
def div : Double → ℚ → Double
  | finite a, b => if b = 0 then nonFinite else round (a / b)
  | nonFinite, _ => nonFinite

end Double

/-! ## `TrillSegment` -/

/-- The conversion from `long` to the 32-bit `int` of `int n = lrint(...)`:
the value modulo `2 ^ 32`, in the range from `-2 ^ 31` to `2 ^ 31 - 1`. -/
def intOfLong (n : Int) : Int :=
  (n + 2 ^ 31) % 2 ^ 32 - 2 ^ 31

/-- The loop `for (int i = 0; i < n; ++i) m_symbols.push_back(fill)`, from the
current value of `i`. -/
def fillLoop (fill : SymId) (n : Int) (i : Int) (symbols : List SymId) : List SymId :=
  if i < n then fillLoop fill n (i + 1) (symbols ++ [fill]) else symbols
termination_by (n - i).toNat
decreasing_by omega

/-- The part of a `TrillSegment` that `trill.cpp` reads and writes: the owning
spanner, the x-coordinate of `pos2()` and the magnification `magS()`, both
finite doubles, the symbol list and the bounding box. `G` is the type of
rectangles. -/
structure TrillSegment (G : Type) where
  m_spanner : Option ItemId
  pos2x : ℚ
  magS : ℚ
  m_symbols : List SymId
  bbox : G

/-- The collaborators of `TrillSegment`: the engraving font, the C library
and the base class `LineSegment`. -/
structure SegmentEnv (G : Type) where
  /-- The font metric `f->advance(id, mag)`, a finite double. -/
  advance : SymId → ℚ → ℚ
  /-- The font metric `f->bbox(symbols, mag)`. -/
  fontBbox : List SymId → ℚ → G
  /-- The value `lrint` returns where the C library leaves it unspecified: for
  an argument that is not finite, and for one whose rounding the type `long`
  cannot hold. -/
  lrintUnspecified : Double → Int
  /-- The base implementation `LineSegment::propertyDelegate`. -/
  lineSegmentPropertyDelegate : Pid → Option ItemId

namespace TrillSegment

variable {B G : Type}

/-- The call `lrint(x)` of `symbolLine`, of type `long`, which is 64 bits
wide: the rounding of `x` when `x` is finite and `long` holds the rounding. -/
def lrintLong (env : SegmentEnv G) (x : Double) : Int :=
  match x with
  | Double.finite q =>
    if -2 ^ 63 ≤ lrint q ∧ lrint q < 2 ^ 63 then lrint q else env.lrintUnspecified x
  | Double.nonFinite => env.lrintUnspecified x

/-- Member `TrillSegment::remove`, as it acts on the owning trill
(`trill()`). The result is `none` when the function dereferences a null
pointer. -/
def remove (e : Option ItemId) (owner : Trill B) : Option (Trill B × List Call) :=
  if owner.accidental = e then
    match e with
    | none => none
    | some id => some (owner.setAccidental none, [Call.removed id])
  else
    some (owner, [])

/-- The argument of `lrint` in `symbolLine(start, fill)`: the quotient
`(w - w1) / w2` as the function computes it in doubles from `x2 = pos2().x()`
and `x1 = 0.0`. -/
def fillQuotient (env : SegmentEnv G) (start fill : SymId) (s : TrillSegment G) : Double :=
  let x1 : Double := Double.finite 0
  let x2 : Double := Double.finite s.pos2x
  let w : Double := x2.sub x1
  let mag : ℚ := s.magS
  let w1 : ℚ := env.advance start mag
  let w2 : ℚ := env.advance fill mag
  (w.sub (Double.finite w1)).div w2

/-- The argument of `lrint` in `symbolLine(start, fill, end)`: the quotient
`(w - w1 - w3) / w2` as the function computes it in doubles. -/
def fillQuotient3 (env : SegmentEnv G) (start fill endSym : SymId) (s : TrillSegment G) :
    Double :=
  let x1 : Double := Double.finite 0
  let x2 : Double := Double.finite s.pos2x
  let w : Double := x2.sub x1
  let mag : ℚ := s.magS
  let w1 : ℚ := env.advance start mag
  let w2 : ℚ := env.advance fill mag
  let w3 : ℚ := env.advance endSym mag
  ((w.sub (Double.finite w1)).sub (Double.finite w3)).div w2

/-- Member `TrillSegment::symbolLine(SymId start, SymId fill)`. -/
def symbolLine (env : SegmentEnv G) (start fill : SymId) (s : TrillSegment G) :
    TrillSegment G :=
  let x1 : Double := Double.finite 0
  let x2 : Double := Double.finite s.pos2x
  let w : Double := x2.sub x1
  let mag : ℚ := s.magS
  let symbols : List SymId := [] ++ [start]
  let w1 : ℚ := env.advance start mag
  let w2 : ℚ := env.advance fill mag
  let n : Int := intOfLong (lrintLong env ((w.sub (Double.finite w1)).div w2))
  let symbols := fillLoop fill n 0 symbols
  { s with m_symbols := symbols, bbox := env.fontBbox symbols mag }

/-- Member `TrillSegment::symbolLine(SymId start, SymId fill, SymId end)`. -/
def symbolLine3 (env : SegmentEnv G) (start fill endSym : SymId) (s : TrillSegment G) :
    TrillSegment G :=
  let x1 : Double := Double.finite 0
  let x2 : Double := Double.finite s.pos2x
  let w : Double := x2.sub x1
  let mag : ℚ := s.magS
  let symbols : List SymId := [] ++ [start]
  let w1 : ℚ := env.advance start mag
  let w2 : ℚ := env.advance fill mag
  let w3 : ℚ := env.advance endSym mag
  let n : Int :=
    intOfLong (lrintLong env (((w.sub (Double.finite w1)).sub (Double.finite w3)).div w2))
  let symbols := fillLoop fill n 0 symbols
  let symbols := symbols ++ [endSym]
  { s with m_symbols := symbols, bbox := env.fontBbox symbols mag }

/-- Member `TrillSegment::propertyDelegate`; `spanner()` is the owning
spanner. -/
def propertyDelegate (env : SegmentEnv G) (pid : Pid) (s : TrillSegment G) :
    Option ItemId :=
  if pid = Pid.TRILL_TYPE ∨ pid = Pid.ORNAMENT_STYLE ∨ pid = Pid.PLACEMENT
      ∨ pid = Pid.PLAY then
    s.m_spanner
  else
    env.lineSegmentPropertyDelegate pid

/-- The width the symbols of a list take: the exact sum of their advances. -/
def advanceSum (env : SegmentEnv G) (mag : ℚ) (symbols : List SymId) : ℚ :=
  (symbols.map (fun id => env.advance id mag)).sum

end TrillSegment

end mu.engraving

namespace mu.engraving

/-! ## Predicates and sample data used in the statements -/

/-- The track synchronisation predicate of a trill: when the trill has an
ornament, the ornament is on the trill's track. -/
def Trill.trackSynced {B : Type} (t : Trill B) : Prop :=
  ∀ o, t.m_ornament = some o → o.m_track = t.track

/-- The property ids `Trill::setProperty` handles without its base class. -/
def Trill.ownSetPids : List Pid := [Pid.TRILL_TYPE, Pid.PLAY, Pid.ORNAMENT_STYLE]

/-- The trill at the moment `Trill::setProperty` reaches the call of
`SLine::setProperty`: for `COLOR` the colour has just been set. -/
def Trill.atBaseCall {B : Type} (env : TrillEnv B) (pid : Pid) (val : PropertyValue)
    (t : Trill B) : Trill B :=
  if pid = Pid.COLOR then t.setColor (val.toColor env) else t

/-- A sample base class: it accepts `COLOR`, `PLACEMENT` and `OFFSET`, stores
nothing, rejects every other id, and answers every query with `other 0`. -/
def sampleEnv : TrillEnv Unit where
  slineInit := { m_track := 0, m_color := ⟨0⟩, segments := [], rest := () }
  slineSetProperty := fun pid _ b =>
    (decide (pid = Pid.COLOR ∨ pid = Pid.PLACEMENT ∨ pid = Pid.OFFSET), b)
  slineGetProperty := fun _ _ => PropertyValue.other 0
  slinePropertyDefault := fun _ _ => PropertyValue.other 0
  styleV := fun _ => PropertyValue.other 1
  styleValue := fun _ _ => PropertyValue.other 1
  createOrnament := { m_track := 0, m_symId := ⟨0⟩ }
  fromTrillType := fun tt => ⟨tt.raw.toNat + 100⟩
  convInt := fun _ => 0
  convBool := fun _ => false
  convOrnamentStyle := fun _ => OrnamentStyle.DEFAULT
  convColor := fun _ => ⟨0⟩

/-- A sample trill on track 2 with two segments, an ornament on another track
and the accidental 7. -/
def sampleTrill : Trill Unit where
  base := { m_track := 2, m_color := ⟨0⟩, segments := [⟨0⟩, ⟨5⟩], rest := () }
  m_trillType := ⟨1⟩
  m_ornament := some { m_track := 9, m_symId := ⟨3⟩ }
  m_accidental := some ⟨7⟩
  m_cueNoteChord := none
  m_ornamentStyle := OrnamentStyle.DEFAULT
  m_playArticulation := false

end mu.engraving

namespace mu.engraving

/-- The property ids `Trill::getProperty` answers without its base class. -/
def Trill.ownGetPids : List Pid := [Pid.TRILL_TYPE, Pid.ORNAMENT_STYLE, Pid.PLAY]

/-- The property ids `Trill::propertyDefault` answers without its base class. -/
def Trill.ownDefaultPids : List Pid :=
  [Pid.TRILL_TYPE, Pid.ORNAMENT_STYLE, Pid.PLAY, Pid.PLACEMENT]

/-- The property ids a trill segment delegates to its trill. -/
def TrillSegment.delegatedPids : List Pid :=
  [Pid.TRILL_TYPE, Pid.ORNAMENT_STYLE, Pid.PLACEMENT, Pid.PLAY]

/-- `Trill::getProperty` passes `pid` to `SLine`: whatever the base class and
the trill, the result is the answer of `SLine::getProperty`. -/
def Trill.getPassesToSLine (pid : Pid) : Prop :=
  ∀ (B : Type) (env : TrillEnv B) (t : Trill B),
    Trill.getProperty env pid t = env.slineGetProperty pid t.base

/-- `Trill::setProperty` passes `pid` to `SLine`: whatever the base class, the
value and the trill, `SLine::setProperty(pid, val)` is called. -/
def Trill.setPassesToSLine (pid : Pid) : Prop :=
  ∀ (B : Type) (env : TrillEnv B) (val : PropertyValue) (t : Trill B),
    Call.slineSetProperty pid val ∈ (Trill.setProperty env pid val t).2.2

/-- `Trill::propertyDefault` passes `pid` to `SLine`: whatever the base class
and the trill, the result is the answer of `SLine::propertyDefault`. -/
def Trill.defaultPassesToSLine (pid : Pid) : Prop :=
  ∀ (B : Type) (env : TrillEnv B) (t : Trill B),
    Trill.propertyDefault env pid t = env.slinePropertyDefault pid t.base

/-- A sample font in which every glyph is one unit wide at every
magnification, with a base class that delegates nothing. -/
def unitFont : SegmentEnv Unit where
  advance := fun _ _ => 1
  fontBbox := fun _ _ => ()
  lrintUnspecified := fun _ => 0
  lineSegmentPropertyDelegate := fun _ => none

/-- A sample segment of the trill 11 that ends at the x-coordinate `x` and
holds two stale symbols. -/
def sampleSegment (x : ℚ) : TrillSegment Unit where
  m_spanner := some ⟨11⟩
  pos2x := x
  magS := 1
  m_symbols := [⟨8⟩, ⟨9⟩]
  bbox := ()

end mu.engraving

namespace mu.engraving

/-- The double nearest to 0.9. -/
def dbl0_9 : ℚ := 8106479329266893 / 9007199254740992

/-- The double nearest to 0.1. -/
def dbl0_1 : ℚ := 3602879701896397 / 36028797018963968

/-- The double nearest to 0.2. -/
def dbl0_2 : ℚ := 3602879701896397 / 18014398509481984

/-- The double nearest to 0.4. -/
def dbl0_4 : ℚ := 3602879701896397 / 9007199254740992

/-- The double nearest to 2.35. -/
def dbl2_35 : ℚ := 5291729562160333 / 2251799813685248

/-- The double nearest to 2.1. -/
def dbl2_1 : ℚ := 4728779608739021 / 2251799813685248

/-- A sample font with the advances 0.9 for the glyph 0, 0.1 for the glyph 1,
0.2 for the glyph 2 and 0.4 for the glyph 3, at every magnification. -/
def tenthsFont : SegmentEnv Unit where
  advance := fun id _ =>
    if id.code = 0 then dbl0_9
    else if id.code = 1 then dbl0_1
    else if id.code = 2 then dbl0_2
    else dbl0_4
  fontBbox := fun _ _ => ()
  lrintUnspecified := fun _ => 0
  lineSegmentPropertyDelegate := fun _ => none

end mu.engraving

/-! # Properties of `xmlreader.cpp` -/

namespace mu.framework

open QXmlStreamReader.TokenType

theorem QXmlStreamAttributes.hasAttribute_iff (attrs : QXmlStreamAttributes) (name : String) :
    attrs.hasAttribute name = true ↔ ∃ a ∈ attrs, a.qualifiedName = name := by
  induction attrs with
  | nil => simp [QXmlStreamAttributes.hasAttribute]
  | cons b rest ih =>
    by_cases hb : b.qualifiedName = name
    · simp [QXmlStreamAttributes.hasAttribute, hb]
    · simp [QXmlStreamAttributes.hasAttribute, hb, ih]

theorem QXmlStreamAttributes.value_first (pre post : QXmlStreamAttributes)
    (a : QXmlStreamAttribute) (name : String) (ha : a.qualifiedName = name)
    (hpre : ∀ b ∈ pre, b.qualifiedName ≠ name) :
    QXmlStreamAttributes.value (pre ++ a :: post) name = a.value := by
  induction pre with
  | nil => simp [QXmlStreamAttributes.value, ha]
  | cons b rest ih =>
    have hb : b.qualifiedName ≠ name := hpre b (by simp)
    have hrest : ∀ c ∈ rest, c.qualifiedName ≠ name := fun c hc => hpre c (by simp [hc])
    simp [QXmlStreamAttributes.value, hb, ih hrest]

theorem QXmlStreamAttributes.value_of_nodup (attrs : QXmlStreamAttributes)
    (hnd : (attrs.map (fun b => b.qualifiedName)).Nodup)
    (a : QXmlStreamAttribute) (ha : a ∈ attrs) :
    QXmlStreamAttributes.value attrs a.qualifiedName = a.value := by
  induction attrs with
  | nil => simp at ha
  | cons b rest ih =>
    rw [List.map_cons, List.nodup_cons] at hnd
    rcases List.mem_cons.mp ha with hab | hmem
    · subst hab
      simp [QXmlStreamAttributes.value]
    · have hne : b.qualifiedName ≠ a.qualifiedName := by
        intro h
        exact hnd.1 (List.mem_map.mpr ⟨a, hmem, h.symm⟩)
      simp [QXmlStreamAttributes.value, hne, ih hnd.2 hmem]

/-- C1. `XmlReader::readNext` and `XmlReader::tokenType` report the token kind
of the underlying parser through `convertTokenType`. That function is total;
it maps each of the six structural kinds to the facade's kind of the same name
and the five other enumerators, and every value outside the enumeration, to
`Unknown`. So the result is `Unknown` exactly when the kind is not structural,
and on the structural kinds the mapping is injective. -/
theorem convertTokenType_preserves_structure {R D : Type} (q : QtParser R D)
    (x : XmlReader R) (t : QXmlStreamReader.TokenType) :
    ((XmlReader.readNext q x).1 = convertTokenType (q.readNext x.m_reader).1
      ∧ (XmlReader.readNext q x).2.m_reader = (q.readNext x.m_reader).2
      ∧ XmlReader.tokenType q x = convertTokenType (q.tokenType x.m_reader))
    ∧ (convertTokenType StartDocument = XmlReader.TokenType.StartDocument
      ∧ convertTokenType EndDocument = XmlReader.TokenType.EndDocument
      ∧ convertTokenType StartElement = XmlReader.TokenType.StartElement
      ∧ convertTokenType EndElement = XmlReader.TokenType.EndElement
      ∧ convertTokenType Comment = XmlReader.TokenType.Comment
      ∧ convertTokenType Characters = XmlReader.TokenType.Characters)
    ∧ (convertTokenType NoToken = XmlReader.TokenType.Unknown
      ∧ convertTokenType Invalid = XmlReader.TokenType.Unknown
      ∧ convertTokenType DTD = XmlReader.TokenType.Unknown
      ∧ convertTokenType EntityReference = XmlReader.TokenType.Unknown
      ∧ convertTokenType ProcessingInstruction = XmlReader.TokenType.Unknown)
    ∧ (t < NoToken ∨ ProcessingInstruction < t →
        convertTokenType t = XmlReader.TokenType.Unknown)
    ∧ (convertTokenType t = XmlReader.TokenType.Unknown ↔ t ∉ structuralTokens)
    ∧ (∀ a ∈ structuralTokens, ∀ b ∈ structuralTokens,
        convertTokenType a = convertTokenType b → a = b) := by
  obtain ⟨n, rfl⟩ : ∃ n : Int, n = t := ⟨t, rfl⟩
  refine ⟨⟨rfl, rfl, rfl⟩, ⟨rfl, rfl, rfl, rfl, rfl, rfl⟩, ⟨rfl, rfl, rfl, rfl, rfl⟩, ?_, ?_, ?_⟩
  · intro h
    simp only [NoToken, ProcessingInstruction] at h
    simp only [convertTokenType, NoToken, Invalid, DTD, EntityReference,
      ProcessingInstruction, StartDocument, EndDocument, StartElement, EndElement,
      Comment, Characters]
    unfold QXmlStreamReader.TokenType at *
    split_ifs <;> first | rfl | omega
  · simp only [convertTokenType, structuralTokens, NoToken, Invalid, DTD, EntityReference,
      ProcessingInstruction, StartDocument, EndDocument, StartElement, EndElement,
      Comment, Characters, List.mem_cons, List.mem_singleton, List.not_mem_nil, or_false]
    unfold QXmlStreamReader.TokenType at *
    split_ifs <;> simp <;> omega
  · intro a ha b hb
    simp only [structuralTokens, List.mem_cons, List.mem_singleton, List.not_mem_nil,
      or_false] at ha hb
    rcases ha with rfl | rfl | rfl | rfl | rfl | rfl <;>
      rcases hb with rfl | rfl | rfl | rfl | rfl | rfl <;>
      first
        | (intro _; rfl)
        | (intro h; exact absurd h (by decide))

/-- The facade run on a sample parser whose next tokens are a start element, a
processing instruction and the out-of-range kind 42. -/
theorem convertTokenType_preserves_structure_witness :
    (XmlReader.readNext listParser
        ⟨{ current := NoToken, attrs := [], pending := [StartElement, ProcessingInstruction] }⟩).1
      = XmlReader.TokenType.StartElement
    ∧ (convertTokenType 42 = XmlReader.TokenType.Unknown ↔ (42 : Int) ∉ structuralTokens) :=
  ⟨(convertTokenType_preserves_structure listParser
      ⟨{ current := NoToken, attrs := [], pending := [StartElement, ProcessingInstruction] }⟩
      42).1.1.trans rfl,
   (convertTokenType_preserves_structure listParser
      ⟨{ current := NoToken, attrs := [], pending := [] }⟩ 42).2.2.2.2.1⟩

theorem XmlReader.intAttribute_of_data {R D : Type} (q : QtParser R D) (x : XmlReader R)
    (name : StringView) (cname : String) (hc : name.data = some cname) (d : Int) (dd : D) :
    ((∀ a ∈ q.attributes x.m_reader, a.qualifiedName ≠ cname) →
        XmlReader.intAttribute q x name d = some d
        ∧ XmlReader.doubleAttribute q x name dd = some dd)
    ∧ (∀ pre a post, q.attributes x.m_reader = pre ++ a :: post →
        a.qualifiedName = cname → (∀ b ∈ pre, b.qualifiedName ≠ cname) →
        XmlReader.intAttribute q x name d = some (q.toInt a.value)
        ∧ XmlReader.doubleAttribute q x name dd = some (q.toDouble a.value)) := by
  constructor
  · intro habs
    have h : (q.attributes x.m_reader).hasAttribute cname = false := by
      rw [Bool.eq_false_iff, Ne, QXmlStreamAttributes.hasAttribute_iff]
      rintro ⟨a, ha, hn⟩
      exact habs a ha hn
    simp [XmlReader.intAttribute, XmlReader.doubleAttribute, XmlReader.hasAttribute, hc, h]
  · intro pre a post hsplit ha hpre
    have h : (q.attributes x.m_reader).hasAttribute cname = true := by
      rw [QXmlStreamAttributes.hasAttribute_iff]
      exact ⟨a, by simp [hsplit], ha⟩
    have hv : (q.attributes x.m_reader).value cname = a.value := by
      rw [hsplit]
      exact QXmlStreamAttributes.value_first pre post a cname ha hpre
    simp [XmlReader.intAttribute, XmlReader.doubleAttribute, XmlReader.hasAttribute,
      XmlReader.attributeValue, hc, h, hv]

theorem StringView.takeWhile_append_nul (l : List Char) (hl : StringView.nul ∉ l) :
    (l ++ [StringView.nul]).takeWhile (fun c => decide (c ≠ StringView.nul)) = l := by
  induction l with
  | nil =>
    rw [List.nil_append, List.takeWhile_cons_of_neg (by simp)]
  | cons c rest ih =>
    have hc : c ≠ StringView.nul := fun hcn => hl (by simp [hcn])
    have hr : StringView.nul ∉ rest := fun hrn => hl (by simp [hrn])
    rw [List.cons_append, List.takeWhile_cons_of_pos (by simpa using hc), ih hr]

theorem StringView.data_ofLiteral (s : String) (h : StringView.nul ∉ s.data) :
    (StringView.ofLiteral s).data = some s ∧ (StringView.ofLiteral s).text = s := by
  cases s with
  | mk l =>
    constructor
    · have hmem : StringView.nul ∈ l ++ [StringView.nul] := by simp
      simp only [StringView.data, StringView.ofLiteral, hmem, if_true,
        StringView.takeWhile_append_nul l h]
    · show String.mk ((l ++ [StringView.nul]).take l.length) = String.mk l
      rw [List.take_left']
      rfl

/-- C2, the code against the claim. The element has the one attribute
`n="12"`. For the view of length 1 into the characters `nx`, whose text is
`n`, an attribute called `n` is present, yet `intAttribute` returns the
default 5 and `doubleAttribute` the default: the lookup is made under the C
string `nx` that `name.data()` points to. For the view of length 3 over the
characters `n`, NUL, `x` no attribute has the view's text as its name, yet
`intAttribute` returns 12, the conversion of the value of `n`, and not the
default. For the view of the literal `n`, and for the view with a null
pointer, the function does what the claim says. -/
theorem XmlReader.intAttribute_drops_view_length :
    ((StringView.mk (some ['n', 'x', StringView.nul]) 1).text = "n"
      ∧ (⟨"n", "12"⟩ : QXmlStreamAttribute) ∈ [(⟨"n", "12"⟩ : QXmlStreamAttribute)]
      ∧ listParser.toInt "12" = 12
      ∧ XmlReader.intAttribute listParser
          ⟨{ current := QXmlStreamReader.TokenType.StartElement,
             attrs := [⟨"n", "12"⟩], pending := [] }⟩
          (StringView.mk (some ['n', 'x', StringView.nul]) 1) 5 = some 5
      ∧ XmlReader.doubleAttribute listParser
          ⟨{ current := QXmlStreamReader.TokenType.StartElement,
             attrs := [⟨"n", "12"⟩], pending := [] }⟩
          (StringView.mk (some ['n', 'x', StringView.nul]) 1) 5 = some 5)
    ∧ ((∀ a ∈ [(⟨"n", "12"⟩ : QXmlStreamAttribute)],
          a.qualifiedName ≠ (StringView.mk (some ['n', StringView.nul, 'x', StringView.nul]) 3).text)
      ∧ XmlReader.intAttribute listParser
          ⟨{ current := QXmlStreamReader.TokenType.StartElement,
             attrs := [⟨"n", "12"⟩], pending := [] }⟩
          (StringView.mk (some ['n', StringView.nul, 'x', StringView.nul]) 3) 5 = some 12)
    ∧ XmlReader.intAttribute listParser
        ⟨{ current := QXmlStreamReader.TokenType.StartElement,
           attrs := [⟨"n", "12"⟩], pending := [] }⟩
        (StringView.ofLiteral "n") 5 = some 12
    ∧ XmlReader.intAttribute listParser
        ⟨{ current := QXmlStreamReader.TokenType.StartElement,
           attrs := [⟨"n", "12"⟩], pending := [] }⟩
        (StringView.mk none 0) 5 = some 5 := by
  refine ⟨⟨by decide, by decide, by decide, by decide, by decide⟩,
    ⟨by decide, by decide⟩, by decide, by decide⟩

end mu.framework

/-! # Properties of `Trill` -/

namespace mu.engraving

/-- C3. Property round trip of a trill: for `TRILL_TYPE` with the integer of a
trill type, for `PLAY` with a boolean and for `ORNAMENT_STYLE` with an
ornament style, `Trill::setProperty` returns true and `Trill::getProperty`
then returns the value that was set. -/
theorem Trill.setProperty_getProperty_roundtrip {B : Type} (env : TrillEnv B) (t : Trill B)
    (tt : TrillType) (b : Bool) (os : OrnamentStyle) :
    ((Trill.setProperty env Pid.TRILL_TYPE (PropertyValue.int tt.toInt) t).1 = true
      ∧ Trill.getProperty env Pid.TRILL_TYPE
          (Trill.setProperty env Pid.TRILL_TYPE (PropertyValue.int tt.toInt) t).2.1
        = PropertyValue.int tt.toInt)
    ∧ ((Trill.setProperty env Pid.PLAY (PropertyValue.bool b) t).1 = true
      ∧ Trill.getProperty env Pid.PLAY
          (Trill.setProperty env Pid.PLAY (PropertyValue.bool b) t).2.1
        = PropertyValue.bool b)
    ∧ ((Trill.setProperty env Pid.ORNAMENT_STYLE (PropertyValue.ornamentStyle os) t).1 = true
      ∧ Trill.getProperty env Pid.ORNAMENT_STYLE
          (Trill.setProperty env Pid.ORNAMENT_STYLE (PropertyValue.ornamentStyle os) t).2.1
        = PropertyValue.ornamentStyle os) :=
  ⟨⟨rfl, rfl⟩, ⟨rfl, rfl⟩, ⟨rfl, rfl⟩⟩

/-- The round trip on the sample trill, for the trill type 3, the play flag
and the ornament style 1. -/
theorem Trill.setProperty_getProperty_roundtrip_witness :
    Trill.getProperty sampleEnv Pid.TRILL_TYPE
        (Trill.setProperty sampleEnv Pid.TRILL_TYPE (PropertyValue.int 3) sampleTrill).2.1
      = PropertyValue.int 3
    ∧ Trill.getProperty sampleEnv Pid.PLAY
        (Trill.setProperty sampleEnv Pid.PLAY (PropertyValue.bool true) sampleTrill).2.1
      = PropertyValue.bool true :=
  ⟨(Trill.setProperty_getProperty_roundtrip sampleEnv sampleTrill ⟨3⟩ true ⟨1⟩).1.2,
   (Trill.setProperty_getProperty_roundtrip sampleEnv sampleTrill ⟨3⟩ true ⟨1⟩).2.1.2⟩

theorem Trill.setPropertyDefault_calls {B : Type} (env : TrillEnv B) (pid : Pid)
    (val : PropertyValue) (t : Trill B) :
    (Trill.setPropertyDefault env pid val t).1 = (env.slineSetProperty pid val t.base).1
    ∧ (Trill.setPropertyDefault env pid val t).2.1
        = { t with base := (env.slineSetProperty pid val t.base).2 }
    ∧ Call.slineSetProperty pid val ∈ (Trill.setPropertyDefault env pid val t).2.2
    ∧ (Call.triggerLayout ∈ (Trill.setPropertyDefault env pid val t).2.2
        ↔ (Trill.setPropertyDefault env pid val t).1 = true) := by
  unfold Trill.setPropertyDefault
  cases h : (env.slineSetProperty pid val t.base).1 <;> simp [h]

theorem Trill.setProperty_of_not_own {B : Type} (env : TrillEnv B) (pid : Pid)
    (val : PropertyValue) (t : Trill B) (h : pid ∉ Trill.ownSetPids) :
    Trill.setProperty env pid val t
      = Trill.setPropertyDefault env pid val (Trill.atBaseCall env pid val t) := by
  simp only [Trill.ownSetPids, List.mem_cons, List.mem_singleton, List.not_mem_nil,
    or_false, not_or] at h
  obtain ⟨h1, h2, h3⟩ := h
  cases pid <;> simp_all [Trill.setProperty, Trill.atBaseCall]

theorem Trill.setProperty_own {B : Type} (env : TrillEnv B) (pid : Pid)
    (val : PropertyValue) (t : Trill B) (h : pid ∈ Trill.ownSetPids) :
    (Trill.setProperty env pid val t).1 = true
    ∧ (Trill.setProperty env pid val t).2.2 = [Call.triggerLayout] := by
  simp only [Trill.ownSetPids, List.mem_cons, List.mem_singleton, List.not_mem_nil,
    or_false] at h
  rcases h with rfl | rfl | rfl <;> exact ⟨rfl, rfl⟩

/-- C4. `Trill::setProperty` fails only through its base class. For
`TRILL_TYPE`, `PLAY` and `ORNAMENT_STYLE` it returns true and makes no call of
`SLine::setProperty`. For every other id it calls `SLine::setProperty(pid, val)`
on the trill as it then is (for `COLOR`, with the colour already set to the
value, the rest as before) and returns false exactly when that call returns
false. In every case the function itself triggers a layout if and only if its
result is true. -/
theorem Trill.setProperty_fails_only_through_base {B : Type} (env : TrillEnv B) (pid : Pid)
    (val : PropertyValue) (t : Trill B) :
    (pid ∈ Trill.ownSetPids →
        (Trill.setProperty env pid val t).1 = true
        ∧ ∀ p v, Call.slineSetProperty p v ∉ (Trill.setProperty env pid val t).2.2)
    ∧ (pid ∉ Trill.ownSetPids →
        ((Trill.setProperty env pid val t).1 = false
          ↔ (env.slineSetProperty pid val (Trill.atBaseCall env pid val t).base).1 = false)
        ∧ Call.slineSetProperty pid val ∈ (Trill.setProperty env pid val t).2.2)
    ∧ ((Trill.atBaseCall env Pid.COLOR val t).color = val.toColor env
        ∧ Trill.atBaseCall env Pid.COLOR val t
            = { t with base := { t.base with m_color := val.toColor env } }
        ∧ (pid ≠ Pid.COLOR → Trill.atBaseCall env pid val t = t))
    ∧ (Call.triggerLayout ∈ (Trill.setProperty env pid val t).2.2
        ↔ (Trill.setProperty env pid val t).1 = true) := by
  refine ⟨?_, ?_, ⟨rfl, rfl, ?_⟩, ?_⟩
  · intro h
    obtain ⟨h1, h2⟩ := Trill.setProperty_own env pid val t h
    rw [h2]
    exact ⟨h1, by simp⟩
  · intro h
    rw [Trill.setProperty_of_not_own env pid val t h]
    have hd := Trill.setPropertyDefault_calls env pid val (Trill.atBaseCall env pid val t)
    exact ⟨by rw [hd.1], hd.2.2.1⟩
  · intro h
    simp [Trill.atBaseCall, h]
  · by_cases h : pid ∈ Trill.ownSetPids
    · obtain ⟨h1, h2⟩ := Trill.setProperty_own env pid val t h
      rw [h1, h2]
      simp
    · rw [Trill.setProperty_of_not_own env pid val t h]
      exact (Trill.setPropertyDefault_calls env pid val _).2.2.2

/-- On the sample trill the base class rejects `MIN_DISTANCE`: the result is
false and the only call made is the one of the base class; it accepts `COLOR`:
the result is true and a layout is triggered. -/
theorem Trill.setProperty_fails_only_through_base_witness :
    ((Trill.setProperty sampleEnv Pid.MIN_DISTANCE (PropertyValue.int 1) sampleTrill).1 = false
      ∧ Call.triggerLayout
          ∉ (Trill.setProperty sampleEnv Pid.MIN_DISTANCE (PropertyValue.int 1) sampleTrill).2.2)
    ∧ Call.triggerLayout
        ∈ (Trill.setProperty sampleEnv Pid.COLOR (PropertyValue.color ⟨4⟩) sampleTrill).2.2 :=
  ⟨⟨((Trill.setProperty_fails_only_through_base sampleEnv Pid.MIN_DISTANCE
        (PropertyValue.int 1) sampleTrill).2.1 (by decide)).1.mpr (by decide),
    fun h => absurd
      ((Trill.setProperty_fails_only_through_base sampleEnv Pid.MIN_DISTANCE
        (PropertyValue.int 1) sampleTrill).2.2.2.mp h) (by decide)⟩,
   (Trill.setProperty_fails_only_through_base sampleEnv Pid.COLOR
      (PropertyValue.color ⟨4⟩) sampleTrill).2.2.2.mpr (by decide)⟩

end mu.engraving

namespace mu.engraving

theorem Trill.setPropertyDefault_own {B : Type} (env : TrillEnv B) (pid : Pid)
    (val : PropertyValue) (t : Trill B) :
    (Trill.setPropertyDefault env pid val t).2.1.m_trillType = t.m_trillType
    ∧ (Trill.setPropertyDefault env pid val t).2.1.m_ornamentStyle = t.m_ornamentStyle
    ∧ (Trill.setPropertyDefault env pid val t).2.1.m_playArticulation
        = t.m_playArticulation := by
  rw [(Trill.setPropertyDefault_calls env pid val t).2.1]
  exact ⟨rfl, rfl, rfl⟩

theorem Trill.create_own {B : Type} (env : TrillEnv B) :
    (Trill.create env).1.m_trillType = TrillType.TRILL_LINE
    ∧ (Trill.create env).1.m_ornamentStyle = OrnamentStyle.DEFAULT
    ∧ (Trill.create env).1.m_playArticulation = true := by
  simp only [Trill.create, trillStyle, Trill.initElementStyle, Trill.setProperty]
  refine ⟨?_, ?_, ?_⟩
  · rw [(Trill.setPropertyDefault_own _ _ _ _).1, (Trill.setPropertyDefault_own _ _ _ _).1]
    rfl
  · rw [(Trill.setPropertyDefault_own _ _ _ _).2.1, (Trill.setPropertyDefault_own _ _ _ _).2.1]
    rfl
  · rw [(Trill.setPropertyDefault_own _ _ _ _).2.2, (Trill.setPropertyDefault_own _ _ _ _).2.2]
    rfl

/-- C5. A trill built by `Trill::Trill(EngravingItem*)` is in its default
state for every property the trill owns: for `TRILL_TYPE`, `ORNAMENT_STYLE`
and `PLAY`, `getProperty` equals `propertyDefault`; the trill type is
`TRILL_LINE`, of integer 0, the ornament style is `DEFAULT` and play is
true. -/
theorem Trill.create_default_state {B : Type} (env : TrillEnv B) :
    (∀ pid ∈ Trill.ownGetPids,
        Trill.getProperty env pid (Trill.create env).1
          = Trill.propertyDefault env pid (Trill.create env).1)
    ∧ (Trill.create env).1.trillType = TrillType.TRILL_LINE
    ∧ Trill.getProperty env Pid.TRILL_TYPE (Trill.create env).1 = PropertyValue.int 0
    ∧ Trill.getProperty env Pid.ORNAMENT_STYLE (Trill.create env).1
        = PropertyValue.ornamentStyle OrnamentStyle.DEFAULT
    ∧ Trill.getProperty env Pid.PLAY (Trill.create env).1 = PropertyValue.bool true := by
  obtain ⟨h1, h2, h3⟩ := Trill.create_own env
  have g1 : Trill.getProperty env Pid.TRILL_TYPE (Trill.create env).1 = PropertyValue.int 0 := by
    simp [Trill.getProperty, Trill.trillType, h1, TrillType.toInt, TrillType.TRILL_LINE]
  have g2 : Trill.getProperty env Pid.ORNAMENT_STYLE (Trill.create env).1
      = PropertyValue.ornamentStyle OrnamentStyle.DEFAULT := by
    simp [Trill.getProperty, Trill.ornamentStyle, h2]
  have g3 : Trill.getProperty env Pid.PLAY (Trill.create env).1 = PropertyValue.bool true := by
    simp [Trill.getProperty, Trill.playArticulation, h3]
  refine ⟨?_, h1, g1, g2, g3⟩
  intro pid hpid
  simp only [Trill.ownGetPids, List.mem_cons, List.mem_singleton, List.not_mem_nil,
    or_false] at hpid
  rcases hpid with rfl | rfl | rfl
  · rw [g1]; rfl
  · rw [g2]; rfl
  · rw [g3]; rfl

/-- The default state of the trill built with the sample base class, read for
`PLAY`. -/
theorem Trill.create_default_state_witness :
    Trill.getProperty sampleEnv Pid.PLAY (Trill.create sampleEnv).1
      = Trill.propertyDefault sampleEnv Pid.PLAY (Trill.create sampleEnv).1 :=
  (Trill.create_default_state sampleEnv).1 Pid.PLAY (by decide)

/-- C9. Track synchronisation of a trill: from any prior state, after
`Trill::setTrillType(tt)` and after `Trill::setTrack(n)` the ornament, when
there is one, is on the trill's track. Moreover after `setTrillType(tt)` the
trill has an ornament and its symbol is `Ornament::fromTrillType(tt)`, and
after `setTrack(n)` the trill and every one of its spanner segments are on
track `n`. -/
theorem Trill.track_synchronised {B : Type} (env : TrillEnv B) (t : Trill B)
    (tt : TrillType) (n : Nat) :
    ((Trill.setTrillType env tt t).trackSynced
      ∧ (∃ o, (Trill.setTrillType env tt t).m_ornament = some o
          ∧ o.m_symId = env.fromTrillType tt)
      ∧ (Trill.setTrillType env tt t).trillType = tt
      ∧ (Trill.setTrillType env tt t).track = t.track)
    ∧ ((Trill.setTrack n t).trackSynced
      ∧ (Trill.setTrack n t).track = n
      ∧ (∀ ss ∈ (Trill.setTrack n t).base.segments, ss.m_track = n)
      ∧ (Trill.setTrack n t).base.segments.length = t.base.segments.length
      ∧ ((Trill.setTrack n t).m_ornament.isSome = t.m_ornament.isSome)) := by
  refine ⟨⟨?_, ?_, rfl, rfl⟩, ?_⟩
  · intro o ho
    simp only [Trill.setTrillType, Option.some.injEq] at ho
    subst ho
    rfl
  · exact ⟨_, rfl, rfl⟩
  · cases ho : t.m_ornament with
    | none =>
      simp [Trill.setTrack, Trill.trackSynced, Trill.track, ho]
    | some o =>
      simp [Trill.setTrack, Trill.trackSynced, Trill.track, ho, Ornament.setTrack]

/-- On the sample trill, whose ornament is on track 9 while the trill is on
track 2: both operations bring the ornament to the trill's track. -/
theorem Trill.track_synchronised_witness :
    (Trill.setTrillType sampleEnv ⟨2⟩ sampleTrill).m_ornament
        = some { m_track := 2, m_symId := ⟨102⟩ }
    ∧ (Trill.setTrack 4 sampleTrill).trackSynced
    ∧ (Trill.setTrack 4 sampleTrill).base.segments = [⟨4⟩, ⟨4⟩] :=
  ⟨by decide, (Trill.track_synchronised sampleEnv sampleTrill ⟨2⟩ 4).2.1, by decide⟩

/-- C10. Removing an element from a trill touches only the accidental: for a
non-null element `e`, `Trill::remove(e)` returns; when `e` is the trill's
accidental it sets the accidental to null and notifies `e`, and otherwise it
leaves the whole trill as it was and notifies nothing; the trill type, the
ornament, the ornament style and the play flag are as before in both cases.
`TrillSegment::remove(e)` has the same effect on the owning trill. -/
theorem Trill.remove_touches_only_accidental {B : Type} (t : Trill B) (e : ItemId) :
    (t.m_accidental = some e →
        Trill.remove (some e) t
          = some ({ t with m_accidental := none }, [Call.removed e]))
    ∧ (t.m_accidental ≠ some e → Trill.remove (some e) t = some (t, []))
    ∧ (∃ t' calls, Trill.remove (some e) t = some (t', calls)
        ∧ t'.m_trillType = t.m_trillType ∧ t'.m_ornament = t.m_ornament
        ∧ t'.m_ornamentStyle = t.m_ornamentStyle
        ∧ t'.m_playArticulation = t.m_playArticulation
        ∧ t'.m_cueNoteChord = t.m_cueNoteChord ∧ t'.base = t.base
        ∧ (∀ c ∈ calls, c = Call.removed e))
    ∧ TrillSegment.remove (some e) t = Trill.remove (some e) t := by
  by_cases h : t.m_accidental = some e
  · have h' : some e = t.m_accidental := h.symm
    refine ⟨?_, ?_, ?_, ?_⟩
    · intro _
      simp [Trill.remove, h]
    · intro hne
      exact absurd h hne
    · exact ⟨{ t with m_accidental := none }, [Call.removed e], by simp [Trill.remove, h],
        rfl, rfl, rfl, rfl, rfl, rfl, by simp⟩
    · simp [Trill.remove, TrillSegment.remove, Trill.accidental, Trill.setAccidental, h]
  · have h' : ¬ some e = t.m_accidental := fun h2 => h h2.symm
    refine ⟨?_, ?_, ?_, ?_⟩
    · intro h2
      exact absurd h2 h
    · intro _
      simp [Trill.remove, h']
    · exact ⟨t, [], by simp [Trill.remove, h'], rfl, rfl, rfl, rfl, rfl, rfl, by simp⟩
    · simp [Trill.remove, TrillSegment.remove, Trill.accidental, h, h']

/-- On the sample trill, whose accidental is the element 7: removing the
element 7 clears the accidental, removing the element 8 changes nothing. -/
theorem Trill.remove_touches_only_accidental_witness :
    Trill.remove (some ⟨7⟩) sampleTrill
        = some ({ sampleTrill with m_accidental := none }, [Call.removed ⟨7⟩])
    ∧ Trill.remove (some ⟨8⟩) sampleTrill = some (sampleTrill, []) :=
  ⟨(Trill.remove_touches_only_accidental sampleTrill ⟨7⟩).1 rfl,
   (Trill.remove_touches_only_accidental sampleTrill ⟨8⟩).2.1 (by decide)⟩

end mu.engraving

/-! # Properties of `TrillSegment` -/

namespace mu.engraving

theorem Trill.getPassesToSLine_iff (pid : Pid) :
    Trill.getPassesToSLine pid ↔ pid ∉ Trill.ownGetPids := by
  constructor
  · intro h hmem
    simp only [Trill.ownGetPids, List.mem_cons, List.mem_singleton, List.not_mem_nil,
      or_false] at hmem
    have hs := h Unit sampleEnv sampleTrill
    rcases hmem with rfl | rfl | rfl <;> exact absurd hs (by decide)
  · intro h B env t
    simp only [Trill.ownGetPids, List.mem_cons, List.mem_singleton, List.not_mem_nil,
      or_false, not_or] at h
    obtain ⟨h1, h2, h3⟩ := h
    cases pid <;> simp_all [Trill.getProperty]

theorem Trill.setPassesToSLine_iff (pid : Pid) :
    Trill.setPassesToSLine pid ↔ pid ∉ Trill.ownSetPids := by
  constructor
  · intro h hmem
    have hs := h Unit sampleEnv (PropertyValue.int 0) sampleTrill
    rw [(Trill.setProperty_own sampleEnv pid (PropertyValue.int 0) sampleTrill hmem).2] at hs
    simp at hs
  · intro h B env val t
    rw [Trill.setProperty_of_not_own env pid val t h]
    exact (Trill.setPropertyDefault_calls env pid val _).2.2.1

theorem Trill.defaultPassesToSLine_iff (pid : Pid) :
    Trill.defaultPassesToSLine pid ↔ pid ∉ Trill.ownDefaultPids := by
  constructor
  · intro h hmem
    simp only [Trill.ownDefaultPids, List.mem_cons, List.mem_singleton, List.not_mem_nil,
      or_false] at hmem
    have hs := h Unit sampleEnv sampleTrill
    rcases hmem with rfl | rfl | rfl | rfl <;> exact absurd hs (by decide)
  · intro h B env t
    simp only [Trill.ownDefaultPids, List.mem_cons, List.mem_singleton, List.not_mem_nil,
      or_false, not_or] at h
    obtain ⟨h1, h2, h3, h4⟩ := h
    cases pid <;> simp_all [Trill.propertyDefault]

/-- C8. Property dispatch between a trill segment and its trill is
consistent. `TrillSegment::propertyDelegate(pid)` returns the owning spanner
for `TRILL_TYPE`, `ORNAMENT_STYLE`, `PLACEMENT` and `PLAY`, and the result of
`LineSegment::propertyDelegate(pid)` for every other id. The ids which
`Trill::getProperty`, `Trill::setProperty` and `Trill::propertyDefault` do not
pass to `SLine` are `TRILL_TYPE`, `ORNAMENT_STYLE` and `PLAY`, and `PLACEMENT`
as well for the default; so for each such id the segment returns the owning
spanner. -/
theorem TrillSegment.propertyDelegate_consistent {G : Type} (env : SegmentEnv G) (pid : Pid)
    (s : TrillSegment G) :
    (pid ∈ TrillSegment.delegatedPids → TrillSegment.propertyDelegate env pid s = s.m_spanner)
    ∧ (pid ∉ TrillSegment.delegatedPids →
        TrillSegment.propertyDelegate env pid s = env.lineSegmentPropertyDelegate pid)
    ∧ (¬ Trill.getPassesToSLine pid ↔ pid ∈ [Pid.TRILL_TYPE, Pid.ORNAMENT_STYLE, Pid.PLAY])
    ∧ (¬ Trill.setPassesToSLine pid ↔ pid ∈ [Pid.TRILL_TYPE, Pid.ORNAMENT_STYLE, Pid.PLAY])
    ∧ (¬ Trill.defaultPassesToSLine pid
        ↔ pid ∈ [Pid.TRILL_TYPE, Pid.ORNAMENT_STYLE, Pid.PLAY, Pid.PLACEMENT])
    ∧ (¬ Trill.getPassesToSLine pid ∨ ¬ Trill.setPassesToSLine pid
          ∨ ¬ Trill.defaultPassesToSLine pid →
        TrillSegment.propertyDelegate env pid s = s.m_spanner) := by
  have hd : pid ∈ TrillSegment.delegatedPids →
      TrillSegment.propertyDelegate env pid s = s.m_spanner := by
    intro h
    simp only [TrillSegment.delegatedPids, List.mem_cons, List.mem_singleton,
      List.not_mem_nil, or_false] at h
    simp [TrillSegment.propertyDelegate, h]
  have hg : ¬ Trill.getPassesToSLine pid
      ↔ pid ∈ [Pid.TRILL_TYPE, Pid.ORNAMENT_STYLE, Pid.PLAY] := by
    rw [Trill.getPassesToSLine_iff, not_not]
    rfl
  have hs : ¬ Trill.setPassesToSLine pid
      ↔ pid ∈ [Pid.TRILL_TYPE, Pid.ORNAMENT_STYLE, Pid.PLAY] := by
    rw [Trill.setPassesToSLine_iff, not_not]
    simp only [Trill.ownSetPids, List.mem_cons, List.mem_singleton, List.not_mem_nil, or_false]
    tauto
  have hp : ¬ Trill.defaultPassesToSLine pid
      ↔ pid ∈ [Pid.TRILL_TYPE, Pid.ORNAMENT_STYLE, Pid.PLAY, Pid.PLACEMENT] := by
    rw [Trill.defaultPassesToSLine_iff, not_not]
    rfl
  refine ⟨hd, ?_, hg, hs, hp, ?_⟩
  · intro h
    simp only [TrillSegment.delegatedPids, List.mem_cons, List.mem_singleton,
      List.not_mem_nil, or_false] at h
    simp [TrillSegment.propertyDelegate, h]
  · intro h
    apply hd
    simp only [TrillSegment.delegatedPids, List.mem_cons, List.mem_singleton,
      List.not_mem_nil, or_false]
    rw [hg, hs, hp] at h
    simp only [List.mem_cons, List.mem_singleton, List.not_mem_nil, or_false] at h
    tauto

/-- On the sample segment of the trill 11: `PLAY` is delegated to the trill,
`COLOR` goes to the base class, which delegates nothing in the sample. -/
theorem TrillSegment.propertyDelegate_consistent_witness :
    TrillSegment.propertyDelegate unitFont Pid.PLAY (sampleSegment 0) = some ⟨11⟩
    ∧ TrillSegment.propertyDelegate unitFont Pid.COLOR (sampleSegment 0) = none :=
  ⟨(TrillSegment.propertyDelegate_consistent unitFont Pid.PLAY (sampleSegment 0)).1 (by decide),
   (TrillSegment.propertyDelegate_consistent unitFont Pid.COLOR (sampleSegment 0)).2.1
     (by decide)⟩

end mu.engraving

namespace mu.engraving

theorem fillLoop_eq (fill : SymId) (n : Int) :
    ∀ (k : Nat) (i : Int) (symbols : List SymId), (n - i).toNat = k →
      fillLoop fill n i symbols = symbols ++ List.replicate k fill := by
  intro k
  induction k with
  | zero =>
    intro i symbols hk
    rw [fillLoop, if_neg (by omega)]
    simp
  | succ k ih =>
    intro i symbols hk
    rw [fillLoop, if_pos (by omega), ih (i + 1) (symbols ++ [fill]) (by omega)]
    simp [List.replicate_succ]

theorem fillLoop_ne_of_pos (start fill : SymId) (k : Nat) (hk : 0 < k) :
    [start] ≠ start :: List.replicate k fill := by
  cases k with
  | zero => omega
  | succ k => simp [List.replicate_succ]

theorem fillLoop_zero (fill : SymId) (n : Int) (symbols : List SymId) :
    fillLoop fill n 0 symbols = symbols ++ List.replicate (max 0 n).toNat fill := by
  rw [fillLoop_eq fill n (max 0 n).toNat 0 symbols (by omega)]

theorem intOfLong_of_range (r : Int) (hlo : -2 ^ 31 ≤ r) (hhi : r < 2 ^ 31) :
    intOfLong r = r := by
  unfold intOfLong
  omega

theorem lrint_sub_abs_le (x : ℚ) : |(lrint x : ℚ) - x| ≤ 1 / 2 := by
  have h1 : ((⌊x⌋ : Int) : ℚ) ≤ x := Int.floor_le x
  have h2 : x < ((⌊x⌋ : Int) : ℚ) + 1 := Int.lt_floor_add_one x
  rw [abs_le]
  simp only [lrint]
  split_ifs with ha hb hc
  · constructor <;> linarith
  · push_cast
    constructor <;> linarith
  · constructor <;> linarith
  · push_cast
    constructor <;> linarith

theorem lrint_lt (x : ℚ) (m : Int) (h : x + 1 / 2 < m) : lrint x < m := by
  have hb := (abs_le.mp (lrint_sub_abs_le x)).2
  have hc : ((lrint x : Int) : ℚ) < (m : ℚ) := by linarith
  exact_mod_cast hc

theorem lrint_nonneg (x : ℚ) (hx : 0 ≤ x) : 0 ≤ lrint x := by
  have h0 : (0 : Int) ≤ ⌊x⌋ := Int.floor_nonneg.mpr hx
  simp only [lrint]
  split_ifs <;> omega

theorem lrint_intCast (n : Int) : lrint (n : ℚ) = n := by
  simp [lrint]

end mu.engraving

/-! # Properties of the double arithmetic -/

namespace mu.engraving

theorem lrint_eq_of_near (x : ℚ) (m : Int) (h : |x - m| < 1 / 2) : lrint x = m := by
  have h1 := (abs_le.mp (lrint_sub_abs_le x))
  have h2 := abs_lt.mp h
  have h3 : ((lrint x : Int) : ℚ) - m < 1 := by linarith [h1.2, h2.1]
  have h4 : (m : ℚ) - (lrint x : Int) < 1 := by linarith [h1.1, h2.2]
  have h5 : lrint x - m < 1 := by exact_mod_cast h3
  have h6 : m - lrint x < 1 := by exact_mod_cast h4
  omega

theorem lrint_eq_of_tie (x : ℚ) (m : Int) (h : x = m + 1 / 2 ∨ x = m - 1 / 2)
    (hm : m % 2 = 0) : lrint x = m := by
  rcases h with h | h
  · have hf : ⌊x⌋ = m := by
      rw [Int.floor_eq_iff, h]
      constructor <;> linarith
    have hd : x - ((m : Int) : ℚ) = 1 / 2 := by
      rw [h]
      ring
    simp only [lrint, hf, hd, lt_irrefl, if_false, hm, if_true]
  · have hf : ⌊x⌋ = m - 1 := by
      rw [Int.floor_eq_iff, h]
      push_cast
      constructor <;> linarith
    have hodd : ¬ (m - 1) % 2 = 0 := by omega
    have hd : x - ((m - 1 : Int) : ℚ) = 1 / 2 := by
      rw [h]
      push_cast
      ring
    simp only [lrint, hf, hd, lt_irrefl, if_false, hodd]
    ring

theorem Double.round_value (x y : ℚ) (h : Double.round x = Double.finite y) :
    y = (lrint (x / 2 ^ (max (Int.log 2 |x|) (-1022) - 52)) : ℚ)
          * 2 ^ (max (Int.log 2 |x|) (-1022) - 52)
    ∧ |y| < 2 ^ 1024 := by
  simp only [Double.round] at h
  split_ifs at h with hov
  · simp only [Double.finite.injEq] at h
    rw [← h]
    exact ⟨rfl, not_le.mp hov⟩

theorem Double.round_error (x y : ℚ) (h : Double.round x = Double.finite y) :
    |y - x| ≤ |x| / 2 ^ 53 + 1 / 2 ^ 1075 := by
  obtain ⟨hy, -⟩ := Double.round_value x y h
  by_cases hx : x = 0
  · subst hx
    rw [hy]
    simp [lrint_intCast 0, lrint]
  have hpos : (0 : ℚ) < |x| := abs_pos.mpr hx
  have hulp : (0 : ℚ) < 2 ^ (max (Int.log 2 |x|) (-1022) - 52) := by positivity
  have hl := lrint_sub_abs_le (x / 2 ^ (max (Int.log 2 |x|) (-1022) - 52))
  have hsplit : y - x = ((lrint (x / 2 ^ (max (Int.log 2 |x|) (-1022) - 52)) : ℚ)
      - x / 2 ^ (max (Int.log 2 |x|) (-1022) - 52))
      * 2 ^ (max (Int.log 2 |x|) (-1022) - 52) := by
    rw [hy]
    field_simp
  have hhalf : |y - x| ≤ 2 ^ (max (Int.log 2 |x|) (-1022) - 52) / 2 := by
    rw [hsplit, abs_mul, abs_of_pos hulp]
    calc _ ≤ 1 / 2 * 2 ^ (max (Int.log 2 |x|) (-1022) - 52) :=
          mul_le_mul_of_nonneg_right hl hulp.le
      _ = _ := by ring
  have hbound : (2 : ℚ) ^ (max (Int.log 2 |x|) (-1022) - 52) / 2
      ≤ |x| / 2 ^ 53 + 1 / 2 ^ 1075 := by
    rcases le_total (Int.log 2 |x|) (-1022) with hle | hge
    · rw [max_eq_right hle]
      have : (0 : ℚ) ≤ |x| / 2 ^ 53 := by positivity
      have he : (2 : ℚ) ^ ((-1022 : Int) - 52) / 2 = 1 / 2 ^ 1075 := by norm_num
      rw [he]
      linarith
    · rw [max_eq_left hge]
      have hlog : (2 : ℚ) ^ Int.log 2 |x| ≤ |x| := by
        have := Int.zpow_log_le_self (b := 2) (r := |x|) (by norm_num) hpos
        exact_mod_cast this
      have he : (2 : ℚ) ^ (Int.log 2 |x| - 52) / 2 = 2 ^ Int.log 2 |x| / 2 ^ 53 := by
        rw [zpow_sub₀ (by norm_num : (2 : ℚ) ≠ 0)]
        norm_num
        ring
      rw [he]
      have h1 : (2 : ℚ) ^ Int.log 2 |x| / 2 ^ 53 ≤ |x| / 2 ^ 53 :=
        div_le_div_of_nonneg_right hlog (by positivity)
      have : (0 : ℚ) ≤ 1 / 2 ^ 1075 := by positivity
      linarith
  exact hhalf.trans hbound

end mu.engraving

namespace mu.engraving

theorem Double.round_eq (x : ℚ) (e m : Int) (he : -1022 ≤ e) (hlo : (2 : ℚ) ^ e ≤ |x|)
    (hhi : |x| < (2 : ℚ) ^ (e + 1)) (hm : lrint (x / 2 ^ (e - 52)) = m)
    (hfin : |(m : ℚ) * 2 ^ (e - 52)| < 2 ^ 1024) :
    Double.round x = Double.finite ((m : ℚ) * 2 ^ (e - 52)) := by
  have hpos : (0 : ℚ) < |x| := lt_of_lt_of_le (by positivity) hlo
  have h1 : e ≤ Int.log 2 |x| := by
    rw [← Int.zpow_le_iff_le_log (by norm_num) hpos]
    exact_mod_cast hlo
  have h2 : Int.log 2 |x| < e + 1 := by
    rw [← Int.lt_zpow_iff_log_lt (by norm_num) hpos]
    exact_mod_cast hhi
  have hlog : max (Int.log 2 |x|) (-1022) = e := by omega
  simp only [Double.round, hlog, hm]
  rw [if_neg (not_le.mpr hfin)]

theorem Double.sub_zero_of_isDouble (x : ℚ) (hx : Double.IsDouble x) :
    (Double.finite x).sub (Double.finite 0) = Double.finite x := by
  simp only [Double.sub, sub_zero]
  exact hx

theorem TrillSegment.fillQuotient_finite {G : Type} (env : SegmentEnv G) (start fill : SymId)
    (s : TrillSegment G) (q : ℚ) (hx : Double.IsDouble s.pos2x)
    (h : TrillSegment.fillQuotient env start fill s = Double.finite q) :
    ∃ a, Double.round (s.pos2x - env.advance start s.magS) = Double.finite a
      ∧ env.advance fill s.magS ≠ 0
      ∧ Double.round (a / env.advance fill s.magS) = Double.finite q := by
  simp only [TrillSegment.fillQuotient, Double.sub_zero_of_isDouble _ hx] at h
  simp only [Double.sub] at h
  cases hr : Double.round (s.pos2x - env.advance start s.magS) with
  | nonFinite =>
    rw [hr] at h
    simp [Double.div] at h
  | finite a =>
    rw [hr] at h
    simp only [Double.div] at h
    by_cases h0 : env.advance fill s.magS = 0
    · simp [h0] at h
    · rw [if_neg h0] at h
      exact ⟨a, rfl, h0, h⟩

theorem TrillSegment.fillQuotient3_finite {G : Type} (env : SegmentEnv G)
    (start fill endSym : SymId) (s : TrillSegment G) (q : ℚ) (hx : Double.IsDouble s.pos2x)
    (h : TrillSegment.fillQuotient3 env start fill endSym s = Double.finite q) :
    ∃ a1 a2, Double.round (s.pos2x - env.advance start s.magS) = Double.finite a1
      ∧ Double.round (a1 - env.advance endSym s.magS) = Double.finite a2
      ∧ env.advance fill s.magS ≠ 0
      ∧ Double.round (a2 / env.advance fill s.magS) = Double.finite q := by
  simp only [TrillSegment.fillQuotient3, Double.sub_zero_of_isDouble _ hx] at h
  simp only [Double.sub] at h
  cases hr : Double.round (s.pos2x - env.advance start s.magS) with
  | nonFinite =>
    rw [hr] at h
    simp [Double.div] at h
  | finite a1 =>
    rw [hr] at h
    simp only at h
    cases hr2 : Double.round (a1 - env.advance endSym s.magS) with
    | nonFinite =>
      rw [hr2] at h
      simp [Double.div] at h
    | finite a2 =>
      rw [hr2] at h
      simp only [Double.div] at h
      by_cases h0 : env.advance fill s.magS = 0
      · simp [h0] at h
      · rw [if_neg h0] at h
        exact ⟨a1, a2, rfl, hr2, h0, h⟩

theorem TrillSegment.lrintLong_in_range {G : Type} (env : SegmentEnv G) (q : ℚ)
    (hlo : -2 ^ 31 ≤ lrint q) (hhi : lrint q < 2 ^ 31) :
    intOfLong (TrillSegment.lrintLong env (Double.finite q)) = lrint q := by
  have h : -2 ^ 63 ≤ lrint q ∧ lrint q < 2 ^ 63 := ⟨by omega, by omega⟩
  simp only [TrillSegment.lrintLong, h, and_self, if_true]
  exact intOfLong_of_range _ hlo hhi

theorem TrillSegment.symbolLine_symbols {G : Type} (env : SegmentEnv G) (start fill : SymId)
    (s : TrillSegment G) :
    (TrillSegment.symbolLine env start fill s).m_symbols
      = start :: List.replicate
          (max 0 (intOfLong (TrillSegment.lrintLong env
            (TrillSegment.fillQuotient env start fill s)))).toNat fill := by
  simp only [TrillSegment.symbolLine, TrillSegment.fillQuotient, fillLoop_zero,
    List.nil_append, List.singleton_append]

theorem TrillSegment.symbolLine3_symbols {G : Type} (env : SegmentEnv G)
    (start fill endSym : SymId) (s : TrillSegment G) :
    (TrillSegment.symbolLine3 env start fill endSym s).m_symbols
      = start :: (List.replicate
          (max 0 (intOfLong (TrillSegment.lrintLong env
            (TrillSegment.fillQuotient3 env start fill endSym s)))).toNat fill ++ [endSym]) := by
  simp only [TrillSegment.symbolLine3, TrillSegment.fillQuotient3, fillLoop_zero,
    List.nil_append, List.singleton_append, List.cons_append]

end mu.engraving

namespace mu.engraving

theorem lrint_eq_of_mem (x : ℚ) (m : Int)
    (h : |x - m| < 1 / 2 ∨ ((x = m + 1 / 2 ∨ x = m - 1 / 2) ∧ m % 2 = 0)) : lrint x = m := by
  rcases h with h | ⟨h, hm⟩
  · exact lrint_eq_of_near x m h
  · exact lrint_eq_of_tie x m h hm

theorem Double.round_of_pos (x y : ℚ) (e m : Int) (he : -1022 ≤ e) (hlo : (2 : ℚ) ^ e ≤ x)
    (hhi : x < (2 : ℚ) ^ (e + 1))
    (hm : |x / 2 ^ (e - 52) - m| < 1 / 2
      ∨ ((x / 2 ^ (e - 52) = m + 1 / 2 ∨ x / 2 ^ (e - 52) = m - 1 / 2) ∧ m % 2 = 0))
    (hy : y = (m : ℚ) * 2 ^ (e - 52)) (hy0 : 0 ≤ y) (hfin : y < 2 ^ 1024) :
    Double.round x = Double.finite y := by
  have hx : 0 < x := lt_of_lt_of_le (by positivity) hlo
  rw [hy]
  apply Double.round_eq x e m he
  · rwa [abs_of_pos hx]
  · rwa [abs_of_pos hx]
  · exact lrint_eq_of_mem _ _ hm
  · rw [← hy, abs_of_nonneg hy0]
    exact hfin

theorem dbl2_35_isDouble : Double.IsDouble dbl2_35 := by
  unfold Double.IsDouble
  apply Double.round_of_pos dbl2_35 dbl2_35 1 5291729562160333 <;> norm_num [dbl2_35]

end mu.engraving

namespace mu.engraving

theorem dbl2_1_isDouble : Double.IsDouble dbl2_1 := by
  unfold Double.IsDouble
  apply Double.round_of_pos dbl2_1 dbl2_1 1 4728779608739021 <;> norm_num [dbl2_1]

theorem tenths_fillQuotient :
    TrillSegment.fillQuotient tenthsFont ⟨0⟩ ⟨1⟩ (sampleSegment dbl2_35)
      = Double.finite (8162774324609025 / 562949953421312) := by
  have h1 : Double.round (dbl2_35 - dbl0_9)
      = Double.finite (1632554864921805 / 1125899906842624) := by
    apply Double.round_of_pos _ _ 0 6530219459687220 <;> norm_num [dbl2_35, dbl0_9]
  have h2 : Double.round (1632554864921805 / 1125899906842624 / dbl0_1)
      = Double.finite (8162774324609025 / 562949953421312) := by
    apply Double.round_of_pos _ _ 3 8162774324609025 <;> norm_num [dbl0_1, abs_lt]
  have hne : dbl0_1 ≠ 0 := by norm_num [dbl0_1]
  show (((Double.finite dbl2_35).sub (Double.finite 0)).sub (Double.finite dbl0_9)).div dbl0_1
    = _
  rw [Double.sub_zero_of_isDouble _ dbl2_35_isDouble]
  simp only [Double.sub, h1, Double.div, if_neg hne, h2]

theorem tenths_fillQuotient3 :
    TrillSegment.fillQuotient3 tenthsFont ⟨0⟩ ⟨3⟩ ⟨2⟩ (sampleSegment dbl2_1)
      = Double.finite (5629499534213121 / 2251799813685248) := by
  have h1 : Double.round (dbl2_1 - dbl0_9)
      = Double.finite (1351079888211149 / 1125899906842624) := by
    apply Double.round_of_pos _ _ 0 5404319552844596 <;> norm_num [dbl2_1, dbl0_9]
  have h2 : Double.round (1351079888211149 / 1125899906842624 - dbl0_2)
      = Double.finite (4503599627370497 / 4503599627370496) := by
    apply Double.round_of_pos _ _ 0 4503599627370497 <;> norm_num [dbl0_2, abs_lt]
  have h3 : Double.round (4503599627370497 / 4503599627370496 / dbl0_4)
      = Double.finite (5629499534213121 / 2251799813685248) := by
    apply Double.round_of_pos _ _ 1 5629499534213121 <;> norm_num [dbl0_4, abs_lt]
  have hne : dbl0_4 ≠ 0 := by norm_num [dbl0_4]
  show ((((Double.finite dbl2_1).sub (Double.finite 0)).sub (Double.finite dbl0_9)).sub
    (Double.finite dbl0_2)).div dbl0_4 = _
  rw [Double.sub_zero_of_isDouble _ dbl2_1_isDouble]
  simp only [Double.sub, h1, h2, Double.div, if_neg hne, h3]

theorem pow31_isDouble (c : ℚ) (hc : c = 1 ∨ c = 2) : Double.IsDouble (2 ^ 31 + c) := by
  unfold Double.IsDouble
  rcases hc with rfl | rfl
  · apply Double.round_of_pos _ _ 31 (2 ^ 52 + 2 ^ 21) <;> norm_num
  · apply Double.round_of_pos _ _ 31 (2 ^ 52 + 2 ^ 22) <;> norm_num

theorem pow31_round : Double.round (2 ^ 31) = Double.finite (2 ^ 31) := by
  apply Double.round_of_pos _ _ 31 (2 ^ 52) <;> norm_num

theorem pow31_sub_zero (c : ℚ) (hc : c = 1 ∨ c = 2) :
    (Double.finite (2 ^ 31 + c)).sub (Double.finite 0) = Double.finite (2 ^ 31 + c) :=
  Double.sub_zero_of_isDouble _ (pow31_isDouble c hc)

theorem pow31_sub_one :
    (Double.finite (2 ^ 31 + 1)).sub (Double.finite 1) = Double.finite (2 ^ 31) := by
  have e1 : (2 : ℚ) ^ 31 + 1 - 1 = 2 ^ 31 := by ring
  simp only [Double.sub, e1, pow31_round]

theorem pow31_sub_two :
    (Double.finite (2 ^ 31 + 2)).sub (Double.finite 1) = Double.finite (2 ^ 31 + 1) := by
  have e1 : (2 : ℚ) ^ 31 + 2 - 1 = 2 ^ 31 + 1 := by ring
  have h1 : Double.round (2 ^ 31 + 1) = Double.finite (2 ^ 31 + 1) :=
    pow31_isDouble 1 (Or.inl rfl)
  simp only [Double.sub, e1, h1]

theorem pow31_div_one : (Double.finite (2 ^ 31)).div 1 = Double.finite (2 ^ 31) := by
  simp only [Double.div, one_ne_zero, if_false, div_one, pow31_round]

theorem unit_fillQuotient :
    TrillSegment.fillQuotient unitFont ⟨0⟩ ⟨1⟩ (sampleSegment (2 ^ 31 + 1))
      = Double.finite (2 ^ 31) := by
  show (((Double.finite (2 ^ 31 + 1)).sub (Double.finite 0)).sub (Double.finite 1)).div 1 = _
  rw [pow31_sub_zero 1 (Or.inl rfl), pow31_sub_one, pow31_div_one]

theorem unit_fillQuotient3 :
    TrillSegment.fillQuotient3 unitFont ⟨0⟩ ⟨1⟩ ⟨2⟩ (sampleSegment (2 ^ 31 + 2))
      = Double.finite (2 ^ 31) := by
  show ((((Double.finite (2 ^ 31 + 2)).sub (Double.finite 0)).sub (Double.finite 1)).sub
    (Double.finite 1)).div 1 = _
  rw [pow31_sub_zero 2 (Or.inr rfl), pow31_sub_two, pow31_sub_one, pow31_div_one]

end mu.engraving

namespace mu.engraving

theorem Double.round_error_cases (x y : ℚ) (h : Double.round x = Double.finite y) :
    |y - x| ≤ |x| / 2 ^ 53 ∨ (|x| < 1 / 2 ^ 1022 ∧ |y - x| ≤ 1 / 2 ^ 1075) := by
  obtain ⟨hy, -⟩ := Double.round_value x y h
  by_cases hx : x = 0
  · subst hx
    left
    rw [hy]
    simp [lrint]
  have hpos : (0 : ℚ) < |x| := abs_pos.mpr hx
  have hulp : (0 : ℚ) < 2 ^ (max (Int.log 2 |x|) (-1022) - 52) := by positivity
  have hl := lrint_sub_abs_le (x / 2 ^ (max (Int.log 2 |x|) (-1022) - 52))
  have hsplit : y - x = ((lrint (x / 2 ^ (max (Int.log 2 |x|) (-1022) - 52)) : ℚ)
      - x / 2 ^ (max (Int.log 2 |x|) (-1022) - 52))
      * 2 ^ (max (Int.log 2 |x|) (-1022) - 52) := by
    rw [hy]
    field_simp
  have hhalf : |y - x| ≤ 2 ^ (max (Int.log 2 |x|) (-1022) - 52) / 2 := by
    rw [hsplit, abs_mul, abs_of_pos hulp]
    calc _ ≤ 1 / 2 * 2 ^ (max (Int.log 2 |x|) (-1022) - 52) :=
          mul_le_mul_of_nonneg_right hl hulp.le
      _ = _ := by ring
  rcases lt_or_le (Int.log 2 |x|) (-1022) with hlt | hge
  · right
    constructor
    · have h1 : |x| < (2 : ℚ) ^ (-1022 : Int) := by
        have := (Int.lt_zpow_iff_log_lt (b := 2) (x := -1022) (r := |x|) (by norm_num) hpos).mpr
          hlt
        exact_mod_cast this
      have h2 : (2 : ℚ) ^ (-1022 : Int) = 1 / 2 ^ 1022 := by norm_num
      rwa [h2] at h1
    · rw [max_eq_right hlt.le] at hhalf
      have he : (2 : ℚ) ^ ((-1022 : Int) - 52) / 2 = 1 / 2 ^ 1075 := by norm_num
      rwa [he] at hhalf
  · left
    rw [max_eq_left hge] at hhalf
    have hlog : (2 : ℚ) ^ Int.log 2 |x| ≤ |x| := by
      have := Int.zpow_log_le_self (b := 2) (r := |x|) (by norm_num) hpos
      exact_mod_cast this
    have he : (2 : ℚ) ^ (Int.log 2 |x| - 52) / 2 = 2 ^ Int.log 2 |x| / 2 ^ 53 := by
      rw [zpow_sub₀ (by norm_num : (2 : ℚ) ≠ 0)]
      norm_num
      ring
    rw [he] at hhalf
    exact hhalf.trans (div_le_div_of_nonneg_right hlog (by positivity))

/-- Every finite double is a whole multiple of the least positive double,
`2 ^ (-1074)`. -/
theorem Double.round_on_grid (x y : ℚ) (h : Double.round x = Double.finite y) :
    ∃ m : Int, y = (m : ℚ) / 2 ^ 1074 := by
  obtain ⟨hy, -⟩ := Double.round_value x y h
  have hk : 0 ≤ max (Int.log 2 |x|) (-1022) - 52 + 1074 := by omega
  obtain ⟨k, hk2⟩ := Int.eq_ofNat_of_zero_le hk
  have he : max (Int.log 2 |x|) (-1022) - 52 = (k : Int) - 1074 := by omega
  refine ⟨lrint (x / 2 ^ (max (Int.log 2 |x|) (-1022) - 52)) * 2 ^ k, ?_⟩
  rw [hy]
  have hz : (2 : ℚ) ^ (max (Int.log 2 |x|) (-1022) - 52) = 2 ^ k / 2 ^ 1074 := by
    rw [he, zpow_sub₀ (by norm_num : (2 : ℚ) ≠ 0), zpow_natCast]
    norm_num
  rw [hz]
  push_cast
  ring

theorem Double.round_exact_of_small (x : ℚ) (m : Int) (hm : x = (m : ℚ) / 2 ^ 1074)
    (hsmall : |x| < 1 / 2 ^ 1022) : Double.round x = Double.finite x := by
  by_cases hx : x = 0
  · subst hx
    simp [Double.round, lrint]
  have hpos : (0 : ℚ) < |x| := abs_pos.mpr hx
  have hlog : Int.log 2 |x| < -1022 := by
    rw [← Int.lt_zpow_iff_log_lt (by norm_num) hpos]
    have h2 : (2 : ℚ) ^ (-1022 : Int) = 1 / 2 ^ 1022 := by norm_num
    have : |x| < (2 : ℚ) ^ (-1022 : Int) := by rwa [h2]
    exact_mod_cast this
  have hmax : max (Int.log 2 |x|) (-1022) = -1022 := max_eq_right hlog.le
  have hu : (2 : ℚ) ^ ((-1022 : Int) - 52) = 1 / 2 ^ 1074 := by norm_num
  have hdiv : x / (1 / 2 ^ 1074) = (m : ℚ) := by
    rw [hm]
    field_simp
  have hy : (m : ℚ) * (1 / 2 ^ 1074) = x := by
    rw [hm]
    ring
  simp only [Double.round, hmax, hu, hdiv, lrint_intCast, hy]
  have hfin : ¬ (2 : ℚ) ^ 1024 ≤ |x| := by
    have : (1 : ℚ) / 2 ^ 1022 < 2 ^ 1024 := by norm_num
    linarith
  rw [if_neg hfin]

/-- The difference of two doubles is rounded with a relative error of at most
`2 ^ (-53)`: a difference below the least normal double is exact. -/
theorem Double.sub_error (a b y : ℚ) (ha : ∃ m : Int, a = (m : ℚ) / 2 ^ 1074)
    (hb : ∃ m : Int, b = (m : ℚ) / 2 ^ 1074)
    (h : Double.round (a - b) = Double.finite y) :
    |y - (a - b)| ≤ |a - b| / 2 ^ 53 := by
  rcases Double.round_error_cases _ _ h with hrel | ⟨hsmall, -⟩
  · exact hrel
  · obtain ⟨ma, hma⟩ := ha
    obtain ⟨mb, hmb⟩ := hb
    have hgrid : a - b = ((ma - mb : Int) : ℚ) / 2 ^ 1074 := by
      rw [hma, hmb]
      push_cast
      ring
    have hex := Double.round_exact_of_small (a - b) (ma - mb) hgrid hsmall
    rw [hex] at h
    simp only [Double.finite.injEq] at h
    rw [← h, sub_self, abs_zero]
    positivity

end mu.engraving

/-! # Properties of `TrillSegment::symbolLine` -/

namespace mu.engraving

/-- C6, as the code has it. After `symbolLine(start, fill)` the symbol list,
whatever it held before, is `start` followed by a number of copies of `fill`,
and after `symbolLine(start, fill, end)` it is `start`, a number of copies of
`fill` and `end`. That number is `max(0, n)`, with `n` the quotient
`(w - w1) / w2`, or `(w - w1 - w3) / w2`, as computed in double precision
(the difference and the quotient each rounded to the nearest double) and then
rounded to the nearest integer, ties to even, whenever the quotient is finite
and `n` fits the 32-bit `int` of the function, from `-2 ^ 31` to `2 ^ 31 - 1`;
no fill symbol is emitted when such an `n` is at most 0. When the x-coordinate
`w` of `pos2` is a double, the computed quotient is the rounded quotient of
the rounded difference. In every case the list is not empty, its first
element is `start`, the last element of the three-symbol form is `end`, and
the bounding box is the one the font gives for the list. -/
theorem TrillSegment.symbolLine_shape {G : Type} (env : SegmentEnv G)
    (start fill endSym : SymId) (s : TrillSegment G) :
    (∀ q : ℚ, TrillSegment.fillQuotient env start fill s = Double.finite q →
        -2 ^ 31 ≤ lrint q → lrint q < 2 ^ 31 →
        (TrillSegment.symbolLine env start fill s).m_symbols
            = start :: List.replicate (max 0 (lrint q)).toNat fill
        ∧ (lrint q ≤ 0 → (TrillSegment.symbolLine env start fill s).m_symbols = [start]))
    ∧ (∀ q : ℚ, TrillSegment.fillQuotient3 env start fill endSym s = Double.finite q →
        -2 ^ 31 ≤ lrint q → lrint q < 2 ^ 31 →
        (TrillSegment.symbolLine3 env start fill endSym s).m_symbols
            = start :: (List.replicate (max 0 (lrint q)).toNat fill ++ [endSym])
        ∧ (lrint q ≤ 0 →
            (TrillSegment.symbolLine3 env start fill endSym s).m_symbols = [start, endSym]))
    ∧ (Double.IsDouble s.pos2x →
        TrillSegment.fillQuotient env start fill s
            = (Double.round (s.pos2x - env.advance start s.magS)).div (env.advance fill s.magS)
        ∧ TrillSegment.fillQuotient3 env start fill endSym s
            = ((Double.round (s.pos2x - env.advance start s.magS)).sub
                (Double.finite (env.advance endSym s.magS))).div (env.advance fill s.magS))
    ∧ (∃ k : Nat, (TrillSegment.symbolLine env start fill s).m_symbols
          = start :: List.replicate k fill)
    ∧ (∃ k : Nat, (TrillSegment.symbolLine3 env start fill endSym s).m_symbols
          = start :: (List.replicate k fill ++ [endSym]))
    ∧ ((TrillSegment.symbolLine env start fill s).m_symbols ≠ []
        ∧ (TrillSegment.symbolLine env start fill s).m_symbols.head? = some start)
    ∧ ((TrillSegment.symbolLine3 env start fill endSym s).m_symbols ≠ []
        ∧ (TrillSegment.symbolLine3 env start fill endSym s).m_symbols.head? = some start
        ∧ (TrillSegment.symbolLine3 env start fill endSym s).m_symbols.getLast? = some endSym)
    ∧ (TrillSegment.symbolLine env start fill s).bbox
        = env.fontBbox (TrillSegment.symbolLine env start fill s).m_symbols s.magS := by
  refine ⟨?_, ?_, ?_, ⟨_, TrillSegment.symbolLine_symbols env start fill s⟩,
    ⟨_, TrillSegment.symbolLine3_symbols env start fill endSym s⟩, ?_, ?_, rfl⟩
  · intro q hq hlo hhi
    rw [TrillSegment.symbolLine_symbols, hq, TrillSegment.lrintLong_in_range env q hlo hhi]
    refine ⟨rfl, ?_⟩
    intro hle
    rw [max_eq_left hle]
    rfl
  · intro q hq hlo hhi
    rw [TrillSegment.symbolLine3_symbols, hq, TrillSegment.lrintLong_in_range env q hlo hhi]
    refine ⟨rfl, ?_⟩
    intro hle
    rw [max_eq_left hle]
    rfl
  · intro hx
    constructor
    · simp only [TrillSegment.fillQuotient, Double.sub_zero_of_isDouble _ hx]
      rfl
    · simp only [TrillSegment.fillQuotient3, Double.sub_zero_of_isDouble _ hx]
      rfl
  · rw [TrillSegment.symbolLine_symbols]
    exact ⟨by simp, rfl⟩
  · rw [TrillSegment.symbolLine3_symbols]
    refine ⟨by simp, rfl, ?_⟩
    rw [← List.cons_append, List.getLast?_append]
    rfl

/-- The three-symbol form on a segment of width 2.1 with the advances 0.9,
0.4 and 0.2, all doubles: the difference 2.1 - 0.9 - 0.2 comes out as
1.0000000000000002 in double precision, the quotient by 0.4 as
2.5000000000000004, and the list gets three fill symbols, the two stale
symbols being dropped. -/
theorem TrillSegment.symbolLine_shape_witness :
    (TrillSegment.symbolLine3 tenthsFont ⟨0⟩ ⟨3⟩ ⟨2⟩ (sampleSegment dbl2_1)).m_symbols
      = [⟨0⟩, ⟨3⟩, ⟨3⟩, ⟨3⟩, ⟨2⟩] :=
  have h3 : lrint (5629499534213121 / 2251799813685248) = 3 :=
    lrint_eq_of_near _ 3 (by norm_num [abs_lt])
  ((TrillSegment.symbolLine_shape tenthsFont ⟨0⟩ ⟨3⟩ ⟨2⟩ (sampleSegment dbl2_1)).2.1
    (5629499534213121 / 2251799813685248) tenths_fillQuotient3
    (by rw [h3]; norm_num) (by rw [h3]; norm_num)).1.trans (by rw [h3]; rfl)

/-- C6 as stated fails in two ways. In the unit font a segment of width
`2 ^ 31 + 1`, a double, has the quotient `2 ^ 31`, in exact and in double
arithmetic alike; the `int` that counts the fill symbols cannot hold it, and
the list is the start symbol alone. With the doubles nearest to 2.35, 0.9 and
0.1 for `w`, `w1` and `w2`, the exact quotient rounds to 14 but the quotient
the function computes in double precision is 14.500000000000002, and the list
gets 15 fill symbols. -/
theorem TrillSegment.symbolLine_shape_counterexample :
    (Double.IsDouble (sampleSegment (2 ^ 31 + 1)).pos2x
      ∧ unitFont.advance ⟨1⟩ 1 ≠ 0
      ∧ lrint (((sampleSegment (2 ^ 31 + 1)).pos2x - unitFont.advance ⟨0⟩ 1)
          / unitFont.advance ⟨1⟩ 1) = 2 ^ 31
      ∧ TrillSegment.fillQuotient unitFont ⟨0⟩ ⟨1⟩ (sampleSegment (2 ^ 31 + 1))
          = Double.finite (2 ^ 31)
      ∧ (TrillSegment.symbolLine unitFont ⟨0⟩ ⟨1⟩ (sampleSegment (2 ^ 31 + 1))).m_symbols
          = [⟨0⟩]
      ∧ (TrillSegment.symbolLine unitFont ⟨0⟩ ⟨1⟩ (sampleSegment (2 ^ 31 + 1))).m_symbols
          ≠ ⟨0⟩ :: List.replicate (max 0 (2 ^ 31 : Int)).toNat ⟨1⟩)
    ∧ (Double.IsDouble (sampleSegment dbl2_35).pos2x
      ∧ lrint (((sampleSegment dbl2_35).pos2x - tenthsFont.advance ⟨0⟩ 1)
          / tenthsFont.advance ⟨1⟩ 1) = 14
      ∧ (TrillSegment.symbolLine tenthsFont ⟨0⟩ ⟨1⟩ (sampleSegment dbl2_35)).m_symbols
          = ⟨0⟩ :: List.replicate 15 ⟨1⟩
      ∧ (TrillSegment.symbolLine tenthsFont ⟨0⟩ ⟨1⟩ (sampleSegment dbl2_35)).m_symbols
          ≠ ⟨0⟩ :: List.replicate (max 0 (14 : Int)).toNat ⟨1⟩) := by
  have hq : ((sampleSegment (2 ^ 31 + 1)).pos2x - unitFont.advance ⟨0⟩ 1)
      / unitFont.advance ⟨1⟩ 1 = ((2 ^ 31 : Int) : ℚ) := by
    norm_num [sampleSegment, unitFont]
  have hr : lrint (((sampleSegment (2 ^ 31 + 1)).pos2x - unitFont.advance ⟨0⟩ 1)
      / unitFont.advance ⟨1⟩ 1) = 2 ^ 31 := by
    rw [hq, lrint_intCast]
  have hl : lrint (2 ^ 31) = 2 ^ 31 := by
    have h := lrint_intCast (2 ^ 31)
    norm_num at h
    exact h
  have hs : (TrillSegment.symbolLine unitFont ⟨0⟩ ⟨1⟩
      (sampleSegment (2 ^ 31 + 1))).m_symbols = [⟨0⟩] := by
    have hn : intOfLong (TrillSegment.lrintLong unitFont (Double.finite (2 ^ 31)))
        = -2 ^ 31 := by
      have hrange : -2 ^ 63 ≤ lrint (2 ^ 31) ∧ lrint (2 ^ 31) < 2 ^ 63 := by
        rw [hl]
        constructor <;> norm_num
      simp only [TrillSegment.lrintLong, hrange, and_self, if_true, hl]
      unfold intOfLong
      omega
    have h0 : (max 0 (-2 ^ 31 : Int)).toNat = 0 := by omega
    rw [TrillSegment.symbolLine_symbols, unit_fillQuotient, hn, h0]
    rfl
  have hq2 : ((sampleSegment dbl2_35).pos2x - tenthsFont.advance ⟨0⟩ 1)
      / tenthsFont.advance ⟨1⟩ 1 = 52241755677497756 / 3602879701896397 := by
    show (dbl2_35 - dbl0_9) / dbl0_1 = _
    norm_num [dbl2_35, dbl0_9, dbl0_1]
  have h15 : lrint (8162774324609025 / 562949953421312) = 15 :=
    lrint_eq_of_near _ 15 (by norm_num [abs_lt])
  have hs2 : (TrillSegment.symbolLine tenthsFont ⟨0⟩ ⟨1⟩ (sampleSegment dbl2_35)).m_symbols
      = ⟨0⟩ :: List.replicate 15 ⟨1⟩ := by
    rw [TrillSegment.symbolLine_symbols, tenths_fillQuotient,
      TrillSegment.lrintLong_in_range tenthsFont _ (by rw [h15]; norm_num)
        (by rw [h15]; norm_num), h15]
    rfl
  refine ⟨⟨pow31_isDouble 1 (Or.inl rfl), by simp [unitFont], hr, unit_fillQuotient, hs, ?_⟩,
    ⟨dbl2_35_isDouble, ?_, hs2, ?_⟩⟩
  · rw [hs]
    exact fillLoop_ne_of_pos ⟨0⟩ ⟨1⟩ _ (by omega)
  · rw [hq2]
    exact lrint_eq_of_near _ 14 (by norm_num [abs_lt])
  · rw [hs2]
    intro h
    have hlen := congrArg List.length h
    simp at hlen

end mu.engraving

namespace mu.engraving

theorem TrillSegment.advanceSum_replicate {G : Type} (env : SegmentEnv G) (mag : ℚ)
    (fill : SymId) (k : Nat) :
    TrillSegment.advanceSum env mag (List.replicate k fill) = k * env.advance fill mag := by
  induction k with
  | zero => simp [TrillSegment.advanceSum]
  | succ k ih =>
    simp only [TrillSegment.advanceSum] at ih
    simp only [TrillSegment.advanceSum, List.replicate_succ, List.map_cons, List.sum_cons, ih]
    push_cast
    ring

theorem TrillSegment.advanceSum_line {G : Type} (env : SegmentEnv G) (mag : ℚ)
    (start fill : SymId) (k : Nat) :
    TrillSegment.advanceSum env mag (start :: List.replicate k fill)
      = env.advance start mag + k * env.advance fill mag := by
  have h := TrillSegment.advanceSum_replicate env mag fill k
  simp only [TrillSegment.advanceSum] at h
  simp only [TrillSegment.advanceSum, List.map_cons, List.sum_cons, h]

theorem TrillSegment.advanceSum_line3 {G : Type} (env : SegmentEnv G) (mag : ℚ)
    (start fill endSym : SymId) (k : Nat) :
    TrillSegment.advanceSum env mag (start :: (List.replicate k fill ++ [endSym]))
      = env.advance start mag + k * env.advance fill mag + env.advance endSym mag := by
  have h := TrillSegment.advanceSum_replicate env mag fill k
  simp only [TrillSegment.advanceSum] at h
  simp only [TrillSegment.advanceSum, List.map_cons, List.sum_cons, List.map_append,
    List.sum_append, h, List.map_nil, List.sum_nil]
  ring

/-- The number of fill symbols against the remaining width: when the width
`R >= 0` left for the fill symbols reaches the division as the double `a`,
off by at most `δ`, the quotient by `w2 > 0` is rounded to the double `q`, and
`n` is `q` rounded to an integer, then `max(0, n)` fill symbols take up `R` to
within half a symbol and the rounding errors. -/
theorem fill_error_core (R w2 a q δ : ℚ) (n : Int) (hR : 0 ≤ R) (hw2 : 0 < w2)
    (ha : |a - R| ≤ δ)
    (hq : |q - a / w2| ≤ |a / w2| / 2 ^ 53
      ∨ (|a / w2| < 1 / 2 ^ 1022 ∧ |q - a / w2| ≤ 1 / 2 ^ 1075))
    (hn : |(n : ℚ) - q| ≤ 1 / 2) :
    |(((max 0 n).toNat : Nat) : ℚ) * w2 - R|
      ≤ w2 / 2 + R / 2 ^ 53 + (1 + 1 / 2 ^ 53) * δ := by
  have hδ : 0 ≤ δ := (abs_nonneg _).trans ha
  have hexp : (1 + 1 / 2 ^ 53) * δ = δ + δ / 2 ^ 53 := by ring
  have hδ53 : 0 ≤ δ / 2 ^ 53 := by positivity
  have hR53 : 0 ≤ R / 2 ^ 53 := by positivity
  have habs : |a / w2| * w2 = |a| := by
    rw [abs_div, abs_of_pos hw2]
    field_simp
  have hA : |a| ≤ R + δ := by
    have h1 : |a| ≤ |a - R| + |R| := by
      have := abs_add (a - R) R
      rwa [sub_add_cancel] at this
    rw [abs_of_nonneg hR] at h1
    linarith
  rcases hq with hrel | ⟨hsmall, htiny⟩
  · have hk : |(((max 0 n).toNat : Nat) : ℚ) * w2 - R| ≤ |(n : ℚ) * w2 - R| := by
      rcases le_or_lt 0 n with h0 | h0
      · have hc : (((max 0 n).toNat : Nat) : ℚ) = (n : ℚ) := by
          rw [max_eq_right h0]
          have h := Int.toNat_of_nonneg h0
          exact_mod_cast h
        rw [hc]
      · have hc : (max 0 n).toNat = 0 := by omega
        have hneg : (n : ℚ) < 0 := by exact_mod_cast h0
        have hprod : (n : ℚ) * w2 < 0 := mul_neg_of_neg_of_pos hneg hw2
        rw [hc, Nat.cast_zero, zero_mul, zero_sub, abs_neg, abs_of_nonneg hR,
          abs_of_neg (by linarith)]
        linarith
    have hY : |(q - a / w2) * w2| ≤ |a| / 2 ^ 53 := by
      rw [abs_mul, abs_of_pos hw2]
      have hmul := mul_le_mul_of_nonneg_right hrel hw2.le
      have he : |a / w2| / 2 ^ 53 * w2 = |a| / 2 ^ 53 := by
        rw [← habs]
        ring
      rw [he] at hmul
      exact hmul
    have hX : |((n : ℚ) - q) * w2| ≤ w2 / 2 := by
      rw [abs_mul, abs_of_pos hw2]
      calc |(n : ℚ) - q| * w2 ≤ 1 / 2 * w2 := mul_le_mul_of_nonneg_right hn hw2.le
        _ = w2 / 2 := by ring
    have hsplit : (n : ℚ) * w2 - R = ((n : ℚ) - q) * w2 + (q - a / w2) * w2 + (a - R) := by
      field_simp
      ring
    have htri : |(n : ℚ) * w2 - R|
        ≤ |((n : ℚ) - q) * w2| + |(q - a / w2) * w2| + |a - R| := by
      rw [hsplit]
      exact abs_add_three _ _ _
    have hdiv : |a| / 2 ^ 53 ≤ (R + δ) / 2 ^ 53 :=
      div_le_div_of_nonneg_right hA (by positivity)
    have hdiv2 : (R + δ) / 2 ^ 53 = R / 2 ^ 53 + δ / 2 ^ 53 := by ring
    rw [hexp]
    linarith
  · have hqabs : |q| < 1 / 2 := by
      have h1 : |q| ≤ |q - a / w2| + |a / w2| := by
        have := abs_add (q - a / w2) (a / w2)
        rwa [sub_add_cancel] at this
      have h2 : (1 : ℚ) / 2 ^ 1075 + 1 / 2 ^ 1022 < 1 / 2 := by norm_num
      linarith
    have hn0 : n = 0 := by
      have h1 : |(n : ℚ)| ≤ |(n : ℚ) - q| + |q| := by
        have := abs_add ((n : ℚ) - q) q
        rwa [sub_add_cancel] at this
      have h2 : |(n : ℚ)| < 1 := by linarith
      have h3 : |n| < 1 := by exact_mod_cast h2
      exact Int.abs_lt_one_iff.mp h3
    subst hn0
    have hc : (max 0 (0 : Int)).toNat = 0 := by omega
    rw [hc, Nat.cast_zero, zero_mul, zero_sub, abs_neg, abs_of_nonneg hR]
    have ha2 : |a| < w2 / 2 := by
      rw [← habs]
      have h1 : |a / w2| * w2 < 1 / 2 ^ 1022 * w2 := mul_lt_mul_of_pos_right hsmall hw2
      have h2 : (1 : ℚ) / 2 ^ 1022 * w2 ≤ w2 / 2 := by
        have h3 : (1 : ℚ) / 2 ^ 1022 ≤ 1 / 2 := by norm_num
        have := mul_le_mul_of_nonneg_right h3 hw2.le
        linarith
      linarith
    have hRa : R ≤ |a| + δ := by
      have h1 := (abs_le.mp ha).1
      have h2 := le_abs_self a
      linarith
    rw [hexp]
    linarith

/-- C7, as the code has it. Let the x-coordinate `w` of `pos2` and the
advances `w1` of the start symbol and, in the three-symbol form, `w3` of the
end symbol be doubles, the fill advance `w2 > 0`, and `w` at least the advance
of the fixed symbols (`w >= w1` for the two-symbol form, `w >= w1 + w3` for
the three-symbol form). Whenever the quotient the function computes in double
precision is finite and its rounding fits the 32-bit `int`, the exact sum of
the advances of the symbols chosen by `TrillSegment::symbolLine` differs from
`w` by at most `w2 / 2` plus an allowance for the rounding of the double
operations: `(w - w1) / 2 ^ 51` for the two-symbol form and
`((w - w1 - w3) + (w - w1)) / 2 ^ 51`, with the absolute value of `w - w1`,
for the three-symbol form. -/
theorem TrillSegment.symbolLine_fills_width {G : Type} (env : SegmentEnv G)
    (start fill endSym : SymId) (s : TrillSegment G)
    (hx : Double.IsDouble s.pos2x) (hw1 : Double.IsDouble (env.advance start s.magS))
    (hw2 : 0 < env.advance fill s.magS) :
    (env.advance start s.magS ≤ s.pos2x →
      ∀ q : ℚ, TrillSegment.fillQuotient env start fill s = Double.finite q →
        -2 ^ 31 ≤ lrint q → lrint q < 2 ^ 31 →
        |TrillSegment.advanceSum env s.magS (TrillSegment.symbolLine env start fill s).m_symbols
            - s.pos2x|
          ≤ env.advance fill s.magS / 2
            + (s.pos2x - env.advance start s.magS) / 2 ^ 51)
    ∧ (Double.IsDouble (env.advance endSym s.magS) →
      env.advance start s.magS + env.advance endSym s.magS ≤ s.pos2x →
      ∀ q : ℚ, TrillSegment.fillQuotient3 env start fill endSym s = Double.finite q →
        -2 ^ 31 ≤ lrint q → lrint q < 2 ^ 31 →
        |TrillSegment.advanceSum env s.magS
              (TrillSegment.symbolLine3 env start fill endSym s).m_symbols
            - s.pos2x|
          ≤ env.advance fill s.magS / 2
            + ((s.pos2x - env.advance start s.magS - env.advance endSym s.magS)
                + |s.pos2x - env.advance start s.magS|) / 2 ^ 51) := by
  have gx := Double.round_on_grid _ _ hx
  have g1 := Double.round_on_grid _ _ hw1
  constructor
  · intro hw q hq hlo hhi
    obtain ⟨a, ha, -, hqa⟩ := TrillSegment.fillQuotient_finite env start fill s q hx hq
    have hR : 0 ≤ s.pos2x - env.advance start s.magS := by linarith
    have e1 := Double.sub_error _ _ _ gx g1 ha
    rw [abs_of_nonneg hR] at e1
    have e2 := Double.round_error_cases _ _ hqa
    have hcore := fill_error_core (s.pos2x - env.advance start s.magS)
      (env.advance fill s.magS) a q _ (lrint q) hR hw2 e1 e2 (lrint_sub_abs_le q)
    rw [TrillSegment.symbolLine_symbols, hq, TrillSegment.lrintLong_in_range env q hlo hhi,
      TrillSegment.advanceSum_line]
    have e : ∀ k : ℚ, env.advance start s.magS + k * env.advance fill s.magS - s.pos2x
        = k * env.advance fill s.magS - (s.pos2x - env.advance start s.magS) := by
      intro k
      ring
    rw [e]
    refine hcore.trans ?_
    generalize s.pos2x - env.advance start s.magS = R at *
    have hexp : env.advance fill s.magS / 2 + R / 2 ^ 53 + (1 + 1 / 2 ^ 53) * (R / 2 ^ 53)
        = env.advance fill s.magS / 2 + R * (2 / 2 ^ 53 + 1 / 2 ^ 106) := by
      ring
    have htarget : env.advance fill s.magS / 2 + R / 2 ^ 51
        = env.advance fill s.magS / 2 + R * (1 / 2 ^ 51) := by
      ring
    rw [hexp, htarget]
    have cR : R * (2 / 2 ^ 53 + 1 / 2 ^ 106) ≤ R * (1 / 2 ^ 51) :=
      mul_le_mul_of_nonneg_left (by norm_num) hR
    linarith
  · intro hw3 hw q hq hlo hhi
    have g3 := Double.round_on_grid _ _ hw3
    obtain ⟨a1, a2, ha1, ha2, -, hqa⟩ :=
      TrillSegment.fillQuotient3_finite env start fill endSym s q hx hq
    have ga1 := Double.round_on_grid _ _ ha1
    have hR : 0 ≤ s.pos2x - env.advance start s.magS - env.advance endSym s.magS := by linarith
    have e1 := Double.sub_error _ _ _ gx g1 ha1
    have e2 := Double.sub_error _ _ _ ga1 g3 ha2
    have e3 := Double.round_error_cases _ _ hqa
    have hV : 0 ≤ |s.pos2x - env.advance start s.magS| := abs_nonneg _
    have hin : |a1 - env.advance endSym s.magS|
        ≤ (s.pos2x - env.advance start s.magS - env.advance endSym s.magS)
          + |s.pos2x - env.advance start s.magS| / 2 ^ 53 := by
      have hsum : a1 - env.advance endSym s.magS
          = (s.pos2x - env.advance start s.magS - env.advance endSym s.magS)
            + (a1 - (s.pos2x - env.advance start s.magS)) := by
        ring
      rw [hsum]
      refine (abs_add _ _).trans ?_
      rw [abs_of_nonneg hR]
      linarith
    have hδ : |a2 - (s.pos2x - env.advance start s.magS - env.advance endSym s.magS)|
        ≤ ((s.pos2x - env.advance start s.magS - env.advance endSym s.magS)
            + |s.pos2x - env.advance start s.magS| / 2 ^ 53) / 2 ^ 53
          + |s.pos2x - env.advance start s.magS| / 2 ^ 53 := by
      have hsum : a2 - (s.pos2x - env.advance start s.magS - env.advance endSym s.magS)
          = (a2 - (a1 - env.advance endSym s.magS))
            + (a1 - (s.pos2x - env.advance start s.magS)) := by
        ring
      rw [hsum]
      refine (abs_add _ _).trans ?_
      have hdiv : |a1 - env.advance endSym s.magS| / 2 ^ 53
          ≤ ((s.pos2x - env.advance start s.magS - env.advance endSym s.magS)
            + |s.pos2x - env.advance start s.magS| / 2 ^ 53) / 2 ^ 53 :=
        div_le_div_of_nonneg_right hin (by positivity)
      linarith
    have hcore := fill_error_core
      (s.pos2x - env.advance start s.magS - env.advance endSym s.magS)
      (env.advance fill s.magS) a2 q _ (lrint q) hR hw2 hδ e3 (lrint_sub_abs_le q)
    rw [TrillSegment.symbolLine3_symbols, hq, TrillSegment.lrintLong_in_range env q hlo hhi,
      TrillSegment.advanceSum_line3]
    have e : ∀ k : ℚ, env.advance start s.magS + k * env.advance fill s.magS
          + env.advance endSym s.magS - s.pos2x
        = k * env.advance fill s.magS
          - (s.pos2x - env.advance start s.magS - env.advance endSym s.magS) := by
      intro k
      ring
    rw [e]
    refine hcore.trans ?_
    generalize s.pos2x - env.advance start s.magS - env.advance endSym s.magS = R at *
    generalize |s.pos2x - env.advance start s.magS| = V at *
    generalize env.advance fill s.magS = w2 at *
    have hexp : w2 / 2 + R / 2 ^ 53
          + (1 + 1 / 2 ^ 53) * ((R + V / 2 ^ 53) / 2 ^ 53 + V / 2 ^ 53)
        = w2 / 2 + R * (2 / 2 ^ 53 + 1 / 2 ^ 106)
          + V * (1 / 2 ^ 53 + 2 / 2 ^ 106 + 1 / 2 ^ 159) := by
      ring
    have htarget : w2 / 2 + (R + V) / 2 ^ 51
        = w2 / 2 + R * (1 / 2 ^ 51) + V * (1 / 2 ^ 51) := by
      ring
    rw [hexp, htarget]
    have cR : R * (2 / 2 ^ 53 + 1 / 2 ^ 106) ≤ R * (1 / 2 ^ 51) :=
      mul_le_mul_of_nonneg_left (by norm_num) hR
    have cV : V * (1 / 2 ^ 53 + 2 / 2 ^ 106 + 1 / 2 ^ 159) ≤ V * (1 / 2 ^ 51) :=
      mul_le_mul_of_nonneg_left (by norm_num) hV
    linarith

theorem dbl0_9_isDouble : Double.IsDouble dbl0_9 := by
  unfold Double.IsDouble
  apply Double.round_of_pos dbl0_9 dbl0_9 (-1) 8106479329266893 <;> norm_num [dbl0_9]

/-- With the doubles nearest to 2.35, 0.9 and 0.1 for `w`, `w1` and `w2` the
function emits 15 fill symbols, and the symbols fill the width to within half
a fill symbol and the rounding allowance. -/
theorem TrillSegment.symbolLine_fills_width_witness :
    (Double.IsDouble (sampleSegment dbl2_35).pos2x
      ∧ Double.IsDouble (tenthsFont.advance ⟨0⟩ (sampleSegment dbl2_35).magS)
      ∧ (0 : ℚ) < tenthsFont.advance ⟨1⟩ (sampleSegment dbl2_35).magS)
    ∧ |TrillSegment.advanceSum tenthsFont (sampleSegment dbl2_35).magS
          (TrillSegment.symbolLine tenthsFont ⟨0⟩ ⟨1⟩ (sampleSegment dbl2_35)).m_symbols
        - (sampleSegment dbl2_35).pos2x|
      ≤ tenthsFont.advance ⟨1⟩ (sampleSegment dbl2_35).magS / 2
        + ((sampleSegment dbl2_35).pos2x
            - tenthsFont.advance ⟨0⟩ (sampleSegment dbl2_35).magS) / 2 ^ 51 :=
  have h15 : lrint (8162774324609025 / 562949953421312) = 15 :=
    lrint_eq_of_near _ 15 (by norm_num [abs_lt])
  have hpos : (0 : ℚ) < tenthsFont.advance ⟨1⟩ (sampleSegment dbl2_35).magS := by
    show (0 : ℚ) < dbl0_1
    norm_num [dbl0_1]
  have hd1 : Double.IsDouble (tenthsFont.advance ⟨0⟩ (sampleSegment dbl2_35).magS) :=
    dbl0_9_isDouble
  ⟨⟨dbl2_35_isDouble, hd1, hpos⟩,
   (TrillSegment.symbolLine_fills_width tenthsFont ⟨0⟩ ⟨1⟩ ⟨2⟩ (sampleSegment dbl2_35)
      dbl2_35_isDouble hd1 hpos).1
      (by
        show dbl0_9 ≤ dbl2_35
        norm_num [dbl0_9, dbl2_35])
      (8162774324609025 / 562949953421312) tenths_fillQuotient
      (by rw [h15]; norm_num) (by rw [h15]; norm_num)⟩

/-- C7 as stated fails in two ways. With the doubles nearest to 2.35, 0.9
and 0.1 for `w`, `w1` and `w2`, where `w2 > 0` and `w >= w1`, the function
emits 15 fill symbols, and the sum of the advances exceeds `w` by more than
`w2 / 2`. In the unit font the three-symbol form on a segment of width
`2 ^ 31 + 2` has room for `2 ^ 31` fill symbols, a number the `int` of the
function cannot hold; it emits the start and the end symbol only, `2 ^ 31`
short of the segment. -/
theorem TrillSegment.symbolLine_fills_width_counterexample :
    ((0 : ℚ) < tenthsFont.advance ⟨1⟩ 1
      ∧ tenthsFont.advance ⟨0⟩ 1 ≤ (sampleSegment dbl2_35).pos2x
      ∧ Double.IsDouble (sampleSegment dbl2_35).pos2x
      ∧ (TrillSegment.symbolLine tenthsFont ⟨0⟩ ⟨1⟩ (sampleSegment dbl2_35)).m_symbols
          = ⟨0⟩ :: List.replicate 15 ⟨1⟩
      ∧ ¬ (|TrillSegment.advanceSum tenthsFont 1
              (TrillSegment.symbolLine tenthsFont ⟨0⟩ ⟨1⟩ (sampleSegment dbl2_35)).m_symbols
            - (sampleSegment dbl2_35).pos2x| ≤ tenthsFont.advance ⟨1⟩ 1 / 2))
    ∧ ((0 : ℚ) < unitFont.advance ⟨1⟩ 1
      ∧ unitFont.advance ⟨0⟩ 1 + unitFont.advance ⟨2⟩ 1 ≤ (sampleSegment (2 ^ 31 + 2)).pos2x
      ∧ Double.IsDouble (sampleSegment (2 ^ 31 + 2)).pos2x
      ∧ (TrillSegment.symbolLine3 unitFont ⟨0⟩ ⟨1⟩ ⟨2⟩ (sampleSegment (2 ^ 31 + 2))).m_symbols
          = [⟨0⟩, ⟨2⟩]
      ∧ ¬ (|TrillSegment.advanceSum unitFont 1
              (TrillSegment.symbolLine3 unitFont ⟨0⟩ ⟨1⟩ ⟨2⟩
                (sampleSegment (2 ^ 31 + 2))).m_symbols
            - (sampleSegment (2 ^ 31 + 2)).pos2x| ≤ unitFont.advance ⟨1⟩ 1 / 2)) := by
  have h15 : lrint (8162774324609025 / 562949953421312) = 15 :=
    lrint_eq_of_near _ 15 (by norm_num [abs_lt])
  have hs2 : (TrillSegment.symbolLine tenthsFont ⟨0⟩ ⟨1⟩ (sampleSegment dbl2_35)).m_symbols
      = ⟨0⟩ :: List.replicate 15 ⟨1⟩ := by
    rw [TrillSegment.symbolLine_symbols, tenths_fillQuotient,
      TrillSegment.lrintLong_in_range tenthsFont _ (by rw [h15]; norm_num)
        (by rw [h15]; norm_num), h15]
    rfl
  have hl : lrint (2 ^ 31) = 2 ^ 31 := by
    have h := lrint_intCast (2 ^ 31)
    norm_num at h
    exact h
  have hs : (TrillSegment.symbolLine3 unitFont ⟨0⟩ ⟨1⟩ ⟨2⟩
      (sampleSegment (2 ^ 31 + 2))).m_symbols = [⟨0⟩, ⟨2⟩] := by
    have hn : intOfLong (TrillSegment.lrintLong unitFont (Double.finite (2 ^ 31)))
        = -2 ^ 31 := by
      have hrange : -2 ^ 63 ≤ lrint (2 ^ 31) ∧ lrint (2 ^ 31) < 2 ^ 63 := by
        rw [hl]
        constructor <;> norm_num
      simp only [TrillSegment.lrintLong, hrange, and_self, if_true, hl]
      unfold intOfLong
      omega
    have h0 : (max 0 (-2 ^ 31 : Int)).toNat = 0 := by omega
    rw [TrillSegment.symbolLine3_symbols, unit_fillQuotient3, hn, h0]
    rfl
  refine ⟨⟨?_, ?_, dbl2_35_isDouble, hs2, ?_⟩,
    ⟨by norm_num [unitFont], by norm_num [unitFont, sampleSegment],
      pow31_isDouble 2 (Or.inr rfl), hs, ?_⟩⟩
  · show (0 : ℚ) < dbl0_1
    norm_num [dbl0_1]
  · show dbl0_9 ≤ dbl2_35
    norm_num [dbl0_9, dbl2_35]
  · rw [hs2, TrillSegment.advanceSum_line]
    show ¬ (|dbl0_9 + ((15 : Nat) : ℚ) * dbl0_1 - dbl2_35| ≤ dbl0_1 / 2)
    intro h
    have h2 := (abs_le.mp h).2
    norm_num [dbl0_9, dbl0_1, dbl2_35] at h2
  · rw [hs]
    intro h
    have h2 := (abs_le.mp h).1
    norm_num [TrillSegment.advanceSum, unitFont, sampleSegment] at h2

end mu.engraving
